import Mathlib

/-!
Connection pool of the MongoDB PHP driver (`util/pool.c`).

A shallow embedding of `util/pool.c` and the properties of its pool operations.

Representation choices, all read off the C source:

* A chain of `stack_node`s starting at `monitor->top` is the list of the sockets
  stored in the nodes, in link order (the head of the list is the top node).
* The chain of `mongo_server`s starting at `monitor->servers` and linked through
  `next_in_pool` is the list of the addresses of those servers, in link order.
  A server is only ever linked into the chain of the monitor of its own key and
  `mongo_util_pool__add_server_ptr` never links a member twice, so the chain is
  always a proper list.
* Caller-owned `mongo_server` structs live in a heap indexed by their address.
* A call that dereferences a null pointer does not return; it yields
  `Except.error Fault.null_deref`.
* A lookup that finds no monitor under the key of a handle works on a freshly
  allocated monitor and stores a zeroed copy of it (`zend_hash_add` copies its
  argument, and `mongo_util_pool__get_monitor` returns the original): what the call
  does to its monitor is lost. The table of the first lookup of a process is lost
  whole (`mongo_util_pool__get_connection_pools` stores its list entry before it
  fills it in). `World.fresh` marks the process that has made no lookup yet.
* Every public operation takes the answer `alloc` of the allocator to the lookup:
  with `alloc = false` a lookup that has to allocate a monitor returns `0`. A lookup
  that finds its key allocates nothing. The `malloc` of a stack node and of the
  table itself are taken to succeed.
* The counter `in_use` is a C `int`: its increments and decrements go through
  `int_wrap`. The counter `in_pool` counts the nodes of the idle stack, which the
  operations keep at 51 or less, so its arithmetic never leaves the range of `int`
  and is left unwrapped.
* Calls to the collaborators that open and close sockets are recorded, in order,
  in a log of events.
-/

namespace MongoPool

/-- A socket descriptor (`int socket`). -/
abbrev Socket := Int

/-- The address of a caller-owned `mongo_server`. -/
abbrev ServerPtr := Nat

/-- Ways in which a call fails to return. -/
inductive Fault
  | null_deref
  | out_of_fuel
  deriving DecidableEq, Repr

/-- Modelled from the spec: the result constants `SUCCESS` and `FAILURE` of the
host runtime, whose header is absent. -/
inductive Status
  | SUCCESS
  | FAILURE
  deriving DecidableEq, Repr

/-- Modelled from the spec: `mongo_server` is declared in `php_mongo.h`, which is
absent; these are the fields `pool.c` reads and writes (`next_in_pool` is carried
by the list `stack_monitor.servers`). `db`, `username` and `password` may be
`NULL`; `connected` is an `int` used as a flag. -/
structure mongo_server where
  host : String
  port : Int
  db : Option String
  username : Option String
  password : Option String
  socket : Socket
  connected : Bool
  deriving DecidableEq, Repr

/-- Modelled from the spec: `stack_monitor` (with its `stack_node` chain and its
`num` counters) is declared in `pool.h`, which is absent; these are the fields
`pool.c` reads and writes. `in_use` and `in_pool` are C `int`s: `in_use` always
holds a value of `int_wrap`, `in_pool` the length of a chain of at most 51 nodes. -/
structure stack_monitor where
  timeout : Int
  in_use : Int
  in_pool : Int
  top : List Socket
  servers : List ServerPtr
  deriving DecidableEq, Repr

/-- A call to a collaborator that opens or closes a socket. -/
inductive Event
  | connect (server : ServerPtr) (timeout : Int) (result : Option Socket)
  | close (socket : Socket)
  deriving DecidableEq, Repr

/-- The caller-owned `mongo_server` structs, by address. -/
abbrev Heap := ServerPtr → mongo_server

/-- The persistent table of monitors, keyed by connection id. -/
abbrev HashTable := List (String × stack_monitor)

/-- The process state the pool operations act on. `pools` is the table of monitors
of the persistent list, empty while there is none; `fresh` holds until the first
lookup of the process and only ever together with an empty table. -/
structure World where
  pools : HashTable
  heap : Heap
  log : List Event
  fresh : Bool := true

/-- The value a 32-bit C `int` holds when the mathematical result is `x`. -/
def int_wrap (x : Int) : Int :=
  (x + 2147483648) % 4294967296 - 2147483648

/-- The monitor `memset` to zero by `mongo_util_pool__get_monitor`. -/
def zero_monitor : stack_monitor :=
  { timeout := 0, in_use := 0, in_pool := 0, top := [], servers := [] }

/-- Overwrite the struct at address `server`. -/
def Heap.set (heap : Heap) (server : ServerPtr) (value : mongo_server) : Heap :=
  fun p => if p = server then value else heap p

/-- Modelled from the spec: the hash table lookup of the host runtime
(`zend_hash_find`), the Registry mapping from ConnectionKey to Monitor. -/
def zend_hash_find : HashTable → String → Option stack_monitor
  | [], _ => none
  | (key, monitor) :: rest, id => if key = id then some monitor else zend_hash_find rest id

/-- Modelled from the spec: storing the monitor of a key in the Registry; the
entry is created when the key is new (`zend_hash_add`) and otherwise is the
struct the operations update in place. -/
def zend_hash_update : HashTable → String → stack_monitor → HashTable
  | [], id, monitor => [(id, monitor)]
  | (key, old) :: rest, id, monitor =>
    if key = id then (key, monitor) :: rest else (key, old) :: zend_hash_update rest id monitor

/-- The macro `MONGO_UTIL_DISCONNECT(sock)`: closes a raw socket. -/
def MONGO_UTIL_DISCONNECT (log : List Event) (socket : Socket) : List Event :=
  log ++ [Event.close socket]

/-- Modelled from the spec: `mongo_util_disconnect` of `connect.c`, which is
absent. It closes the connection of a handle: idempotent, the socket of a
connected handle is closed and its `connected` flag cleared. -/
def mongo_util_disconnect (heap : Heap) (log : List Event) (server : ServerPtr) :
    Heap × List Event :=
  if (heap server).connected then
    (heap.set server { heap server with connected := false },
      MONGO_UTIL_DISCONNECT log (heap server).socket)
  else (heap, log)

/-- Modelled from the spec: `dial_and_authenticate(endpoint, timeout)`, the pair
`mongo_util_connect` and `mongo_util_connect_authenticate` of `connect.c`, which
is absent. `dial` is what the network answers: `some socket` when both steps
succeed, which leaves the handle connected on that socket, and `none` otherwise. -/
def dial_and_authenticate (heap : Heap) (log : List Event) (server : ServerPtr)
    (timeout : Int) (dial : Option Socket) : Heap × List Event × Status :=
  match dial with
  | some socket =>
    (heap.set server { heap server with socket := socket, connected := true },
      log ++ [Event.connect server timeout dial], Status.SUCCESS)
  | none => (heap, log ++ [Event.connect server timeout dial], Status.FAILURE)

/-- The function `mongo_util_pool__connect`. -/
def mongo_util_pool__connect (heap : Heap) (log : List Event) (server : ServerPtr)
    (timeout : Int) (dial : Option Socket) : Heap × List Event × Status :=
  dial_and_authenticate heap log server timeout dial

/-- The function `mongo_util_pool__get_id`: the format `"%s:%d.%s.%s.%s"` applied to
host, port, db, username and password, a `NULL` string printed as `""`. -/
def mongo_util_pool__get_id (server : mongo_server) : String :=
  server.host ++ ":" ++ toString server.port ++ "." ++ server.db.getD "" ++ "."
    ++ server.username.getD "" ++ "." ++ server.password.getD ""

/-- The function `mongo_util_pool__get_monitor`, the struct it returns: the monitor
stored under the id of `server` (`mptr`), or a freshly allocated and zeroed one when
there is none. What becomes of the table is `registry_after`. -/
def mongo_util_pool__get_monitor (pools : HashTable) (server : mongo_server) : stack_monitor :=
  match zend_hash_find pools (mongo_util_pool__get_id server) with
  | some mptr => mptr
  | none => zero_monitor

/-- The functions `mongo_util_pool__get_monitor` and
`mongo_util_pool__get_connection_pools`, the table they leave behind once the call
has brought the struct it was given to `monitor`. A stored monitor is updated in
place. For a key with no entry `zend_hash_add` stored a zeroed copy and the call
worked on the original, so the table holds a zeroed monitor; in a fresh process
even that is lost, with the table of the call. -/
def registry_after (w : World) (id : String) (monitor : stack_monitor) : HashTable :=
  match zend_hash_find w.pools id with
  | some _ => zend_hash_update w.pools id monitor
  | none => if w.fresh then w.pools else zend_hash_update w.pools id zero_monitor

/-- Whether `mongo_util_pool__get_monitor` returns a monitor rather than `0`: it
does when the key is stored, and otherwise when the allocation succeeds. -/
def monitor_resolved (w : World) (server : mongo_server) (alloc : Bool) : Bool :=
  (zend_hash_find w.pools (mongo_util_pool__get_id server)).isSome || alloc

/-- The function `mongo_util_pool__stack_pop`: unlinks the top node and returns its
socket; `node->next` with `node == NULL` when the stack is empty. -/
def mongo_util_pool__stack_pop (monitor : stack_monitor) :
    Except Fault (Socket × stack_monitor) :=
  match monitor.top with
  | [] => Except.error Fault.null_deref
  | socket :: next =>
    Except.ok (socket, { monitor with top := next, in_pool := monitor.in_pool - 1 })

/-- The walk `while (node && count < 50) { node = node->next; count++; }` of
`mongo_util_pool__stack_push`: the nodes stepped over, and the chain at `node`
when the loop ends (`[]` is `NULL`). -/
def stack_push_walk : List Socket → Nat → List Socket × List Socket
  | [], _ => ([], [])
  | socket :: next, count =>
    if count < 50 then
      ((socket :: (stack_push_walk next (count + 1)).1), (stack_push_walk next (count + 1)).2)
    else ([], socket :: next)

/-- The loop `while (node) { ... }` of `mongo_util_pool__stack_push` that closes and
frees the severed nodes, decrementing `in_pool` for each. -/
def stack_push_evict : List Socket → Int → List Event → Int × List Event
  | [], in_pool, log => (in_pool, log)
  | socket :: next, in_pool, log =>
    stack_push_evict next (in_pool - 1) (MONGO_UTIL_DISCONNECT log socket)

/-- The function `mongo_util_pool__stack_push`. -/
def mongo_util_pool__stack_push (monitor : stack_monitor) (server : mongo_server)
    (log : List Event) : Except Fault (stack_monitor × List Event) :=
  let monitor :=
    if server.connected then
      { monitor with top := server.socket :: monitor.top, in_pool := monitor.in_pool + 1 }
    else monitor
  if monitor.in_pool > 50 then
    match stack_push_walk monitor.top 0 with
    | (_, []) => Except.error Fault.null_deref
    | (before, socket :: next) =>
      Except.ok
        ({ monitor with
            top := before ++ [socket],
            in_pool := (stack_push_evict next monitor.in_pool log).1 },
          (stack_push_evict next monitor.in_pool log).2)
  else Except.ok (monitor, log)

/-- The function `mongo_util_pool__add_server_ptr`: a server already in the chain
is not linked again. -/
def mongo_util_pool__add_server_ptr (monitor : stack_monitor) (server : ServerPtr) :
    stack_monitor :=
  if server ∈ monitor.servers then monitor
  else
    { monitor with
      servers := server :: monitor.servers, in_use := int_wrap (monitor.in_use + 1) }

/-- The scan `while (current && current != server)` of
`mongo_util_pool__rm_server_ptr` over the chain after the head: the chain with
`server` unlinked, `none` when the scan ends at `NULL`. -/
def rm_server_ptr_scan (server : ServerPtr) : List ServerPtr → Option (List ServerPtr)
  | [] => none
  | current :: next =>
    if current = server then some next
    else (rm_server_ptr_scan server next).map (fun chain => current :: chain)

/-- The function `mongo_util_pool__rm_server_ptr`. -/
def mongo_util_pool__rm_server_ptr (monitor : stack_monitor) (server : ServerPtr) :
    stack_monitor :=
  match monitor.servers with
  | [] => monitor
  | head :: next =>
    if head = server then { monitor with servers := next }
    else
      match rm_server_ptr_scan server next with
      | some chain =>
        { monitor with servers := head :: chain, in_use := int_wrap (monitor.in_use - 1) }
      | none => monitor

/-- The first loop of `mongo_util_pool__close_connections`: disconnects every
server of the chain, decrementing `in_use` for each. -/
def close_connections_servers : List ServerPtr → Heap → Int → List Event →
    Heap × Int × List Event
  | [], heap, in_use, log => (heap, in_use, log)
  | current :: next, heap, in_use, log =>
    close_connections_servers next (mongo_util_disconnect heap log current).1
      (int_wrap (in_use - 1)) (mongo_util_disconnect heap log current).2

/-- The second loop of `mongo_util_pool__close_connections`,
`while (top) { current = stack_pop(monitor); MONGO_UTIL_DISCONNECT(current->socket); }`.
The local `top` is read once before the loop and never assigned in it. -/
def close_connections_stack (top : List Socket) :
    Nat → stack_monitor → List Event → Except Fault (stack_monitor × List Event)
  | 0, _, _ => Except.error Fault.out_of_fuel
  | fuel + 1, monitor, log =>
    match top with
    | [] => Except.ok (monitor, log)
    | _ :: _ =>
      match mongo_util_pool__stack_pop monitor with
      | Except.error fault => Except.error fault
      | Except.ok (current, monitor) =>
        close_connections_stack top fuel monitor (MONGO_UTIL_DISCONNECT log current)

/-- The function `mongo_util_pool__close_connections`. The second loop gets one
unit of fuel more than it can make iterations. -/
def mongo_util_pool__close_connections (monitor : stack_monitor) (heap : Heap)
    (log : List Event) : Except Fault (stack_monitor × Heap × List Event) :=
  let closed := close_connections_servers monitor.servers heap monitor.in_use log
  let monitor := { monitor with in_use := closed.2.1, servers := [] }
  match close_connections_stack monitor.top (monitor.top.length + 2) monitor closed.2.2 with
  | Except.error fault => Except.error fault
  | Except.ok (monitor, log) => Except.ok ({ monitor with top := [] }, closed.1, log)

/-- The function `mongo_util_pool_init`; `alloc` is the answer of the allocator
should the lookup have to allocate. -/
def mongo_util_pool_init (w : World) (server : ServerPtr) (timeout : Int)
    (alloc : Bool := true) : World × Status :=
  if monitor_resolved w (w.heap server) alloc then
    let monitor := mongo_util_pool__get_monitor w.pools (w.heap server)
    let monitor := if timeout ≠ 0 then { monitor with timeout := timeout } else monitor
    ({ w with
        pools := registry_after w (mongo_util_pool__get_id (w.heap server)) monitor,
        fresh := false },
      Status.SUCCESS)
  else ({ w with fresh := false }, Status.FAILURE)

/-- The function `mongo_util_pool_get`; `dial` is the answer of the network
should the call dial, `alloc` the answer of the allocator should the lookup have to
allocate. -/
def mongo_util_pool_get (w : World) (server : ServerPtr) (dial : Option Socket)
    (alloc : Bool := true) : Except Fault (World × Status) :=
  if monitor_resolved w (w.heap server) alloc then
    let id := mongo_util_pool__get_id (w.heap server)
    let monitor := mongo_util_pool__get_monitor w.pools (w.heap server)
    match monitor.top with
    | _ :: _ =>
      match mongo_util_pool__stack_pop monitor with
      | Except.error fault => Except.error fault
      | Except.ok (target, monitor) =>
        Except.ok
          ({ w with
              pools := registry_after w id
                { monitor with in_use := int_wrap (monitor.in_use + 1) },
              heap := w.heap.set server
                { w.heap server with socket := target, connected := true },
              fresh := false },
            Status.SUCCESS)
    | [] =>
      match mongo_util_pool__connect w.heap w.log server monitor.timeout dial with
      | (heap, log, Status.SUCCESS) =>
        Except.ok
          ({ pools := registry_after w id (mongo_util_pool__add_server_ptr monitor server),
             heap := heap.set server { heap server with connected := true },
             log := log,
             fresh := false },
            Status.SUCCESS)
      | (heap, log, Status.FAILURE) =>
        Except.ok
          ({ pools := registry_after w id monitor,
             heap := heap.set server { heap server with connected := false },
             log := log,
             fresh := false },
            Status.FAILURE)
  else Except.ok ({ w with fresh := false }, Status.FAILURE)

/-- The function `mongo_util_pool_done`; `alloc` is the answer of the allocator
should the lookup have to allocate. -/
def mongo_util_pool_done (w : World) (server : ServerPtr) (alloc : Bool := true) :
    Except Fault World :=
  if monitor_resolved w (w.heap server) alloc then
    let id := mongo_util_pool__get_id (w.heap server)
    let monitor := mongo_util_pool__get_monitor w.pools (w.heap server)
    let monitor := mongo_util_pool__rm_server_ptr monitor server
    if (w.heap server).connected then
      match mongo_util_pool__stack_push monitor (w.heap server) w.log with
      | Except.error fault => Except.error fault
      | Except.ok (monitor, log) =>
        Except.ok { w with pools := registry_after w id monitor, log := log, fresh := false }
    else Except.ok { w with pools := registry_after w id monitor, fresh := false }
  else
    Except.ok
      { w with
        heap := (mongo_util_disconnect w.heap w.log server).1,
        log := (mongo_util_disconnect w.heap w.log server).2,
        fresh := false }

/-- The function `mongo_util_pool_failed`; `dial` is the answer of the network to
the reconnect, `alloc` the answer of the allocator should the lookup have to
allocate. -/
def mongo_util_pool_failed (w : World) (server : ServerPtr) (dial : Option Socket)
    (alloc : Bool := true) : Except Fault World :=
  if monitor_resolved w (w.heap server) alloc then
    let id := mongo_util_pool__get_id (w.heap server)
    let monitor := mongo_util_pool__get_monitor w.pools (w.heap server)
    let closed := mongo_util_disconnect w.heap w.log server
    match mongo_util_pool__connect closed.1 closed.2 server monitor.timeout dial with
    | (heap, log, Status.FAILURE) =>
      match mongo_util_pool__close_connections monitor heap log with
      | Except.error fault => Except.error fault
      | Except.ok (monitor, heap, log) =>
        Except.ok
          { pools := registry_after w id monitor, heap := heap, log := log, fresh := false }
    | (heap, log, Status.SUCCESS) =>
      Except.ok
        { pools := registry_after w id monitor, heap := heap, log := log, fresh := false }
  else Except.ok { w with fresh := false }

/-- The loop of `mongo_util_pool_shutdown` over the table of monitors. -/
def shutdown_loop : HashTable → Heap → List Event →
    Except Fault (HashTable × Heap × List Event)
  | [], heap, log => Except.ok ([], heap, log)
  | (id, monitor) :: rest, heap, log =>
    match mongo_util_pool__close_connections monitor heap log with
    | Except.error fault => Except.error fault
    | Except.ok (monitor, heap, log) =>
      match shutdown_loop rest heap log with
      | Except.error fault => Except.error fault
      | Except.ok (rest, heap, log) => Except.ok ((id, monitor) :: rest, heap, log)

/-- The function `mongo_util_pool_shutdown`. -/
def mongo_util_pool_shutdown (w : World) : Except Fault World :=
  match shutdown_loop w.pools w.heap w.log with
  | Except.error fault => Except.error fault
  | Except.ok (pools, heap, log) =>
    Except.ok { pools := pools, heap := heap, log := log, fresh := w.fresh }

/-- A call of one of the public operations of the pool, with the answers of the
network and of the allocator. -/
inductive Op
  | init (server : ServerPtr) (timeout : Int) (alloc : Bool := true)
  | get (server : ServerPtr) (dial : Option Socket) (alloc : Bool := true)
  | done (server : ServerPtr) (alloc : Bool := true)
  | failed (server : ServerPtr) (dial : Option Socket) (alloc : Bool := true)
  | shutdown
  deriving DecidableEq, Repr

/-- The state after one call. -/
def step (w : World) : Op → Except Fault World
  | Op.init server timeout alloc => Except.ok (mongo_util_pool_init w server timeout alloc).1
  | Op.get server dial alloc =>
    match mongo_util_pool_get w server dial alloc with
    | Except.error fault => Except.error fault
    | Except.ok (w, _) => Except.ok w
  | Op.done server alloc => mongo_util_pool_done w server alloc
  | Op.failed server dial alloc => mongo_util_pool_failed w server dial alloc
  | Op.shutdown => mongo_util_pool_shutdown w

/-- The state after a sequence of calls, made in order. -/
def run (w : World) : List Op → Except Fault World
  | [] => Except.ok w
  | op :: ops =>
    match step w op with
    | Except.error fault => Except.error fault
    | Except.ok w => run w ops

/-- The monitor the operations on `server` resolve to. -/
def World.monitor (w : World) (server : ServerPtr) : stack_monitor :=
  mongo_util_pool__get_monitor w.pools (w.heap server)

/-- The number of dials recorded in a log that succeeded. -/
def dials_succeeded : List Event → Nat
  | [] => 0
  | Event.connect _ _ (some _) :: log => dials_succeeded log + 1
  | _ :: log => dials_succeeded log

/-- The number of dials recorded in a log. -/
def dial_calls : List Event → Nat
  | [] => 0
  | Event.connect _ _ _ :: log => dial_calls log + 1
  | _ :: log => dial_calls log

/-- The sockets closed in a log, in order. -/
def closed_sockets : List Event → List Socket
  | [] => []
  | Event.close socket :: log => socket :: closed_sockets log
  | _ :: log => closed_sockets log

/-- A handle on endpoint A (`localhost:27017`, database `test`, no credentials),
not connected. -/
def endpoint_A : mongo_server :=
  { host := "localhost", port := 27017, db := some "test", username := none,
    password := none, socket := 0, connected := false }

/-- The state of a fresh process: no monitor, every handle on endpoint A and
disconnected, nothing logged. -/
def fresh_world : World :=
  { pools := [], heap := fun _ => endpoint_A, log := [] }

deriving instance DecidableEq for Except

/-- Handles `1 .. n` acquire in turn; the dial of handle `i` succeeds with socket `i`. -/
def acquire_all (n : Nat) : List Op :=
  (List.range n).map (fun i => Op.get (i + 1) (some ((i : Int) + 1)))

/-- Handles `1 .. n` release in turn. -/
def release_all (n : Nat) : List Op :=
  (List.range n).map (fun i => Op.done (i + 1))

/-- The state a sequence of calls leaves a fresh process in (the fresh state
itself when a call does not return). -/
def world_after (ops : List Op) : World :=
  match run fresh_world ops with
  | Except.ok w => w
  | Except.error _ => fresh_world

/-- A handle on endpoint A with the given credentials. -/
def with_credentials (username password : Option String) : mongo_server :=
  { endpoint_A with username := username, password := password }

/-- Every monitor of the table counts the nodes of its idle stack in `in_pool`. -/
def pool_invariant (pools : HashTable) : Prop :=
  ∀ entry ∈ pools, (entry.2.top.length : Int) = entry.2.in_pool

/-- Every monitor of the table counts the nodes of its idle stack in `in_pool` and
holds at most 51 of them. -/
def idle_bounded (pools : HashTable) : Prop :=
  ∀ entry ∈ pools, (entry.2.top.length : Int) = entry.2.in_pool ∧ entry.2.top.length ≤ 51

/-- Every monitor of the table lists no server twice in its chain. -/
def active_invariant (pools : HashTable) : Prop :=
  ∀ entry ∈ pools, entry.2.servers.Nodup

/-- A handle on endpoint B, another host. -/
def endpoint_B : mongo_server :=
  { endpoint_A with host := "otherhost" }

/-- A fresh process whose handles below 100 are on endpoint A and the others on
endpoint B, all disconnected. -/
def two_endpoint_world : World :=
  { pools := [], heap := fun p => if p < 100 then endpoint_A else endpoint_B, log := [] }

/-- Handle 1 acquires and releases, `n` times over. -/
def acquire_release_rounds (n : Nat) : List Op :=
  (List.replicate n [Op.get 1 none, Op.done 1]).flatten

/-! ## Concrete runs -/

/-- C1 (the code on the scenario of the claim, from two registries with no Monitor
for endpoint A). In a fresh process the counters after the first acquire are
`in_use = 0, in_pool = 0`, not `(1, 0)`: the lookup finds no monitor, the acquire
registers the handle in a struct the table never holds and the table keeps a zeroed
copy; the release and the second acquire then give `(0, 1)` and `(1, 0)`. In a process
that has made one lookup for endpoint B before, the first acquire finds the zeroed
monitor the `init` stored and gives `(1, 0)`, the release gives `(1, 1)`, not `(0, 1)`,
because the released handle is the head of the servers chain and that path of
`mongo_util_pool__rm_server_ptr` returns without decrementing `in_use`, and the second
acquire gives `(2, 0)`, not `(1, 0)`. In both runs the second acquire does not dial. -/
theorem scenario_counters :
    (run fresh_world [Op.init 0 30, Op.get 0 (some 7)]).map
        (fun w => ((w.monitor 0).in_use, (w.monitor 0).in_pool, dial_calls w.log))
      = Except.ok (0, 0, 1)
    ∧ (run fresh_world [Op.init 0 30, Op.get 0 (some 7), Op.done 0]).map
        (fun w => ((w.monitor 0).in_use, (w.monitor 0).in_pool, dial_calls w.log))
      = Except.ok (0, 1, 1)
    ∧ (run fresh_world [Op.init 0 30, Op.get 0 (some 7), Op.done 0, Op.get 0 (some 8)]).map
        (fun w => ((w.monitor 0).in_use, (w.monitor 0).in_pool, dial_calls w.log))
      = Except.ok (1, 0, 1)
    ∧ (run two_endpoint_world [Op.init 100 0]).map
        (fun w => zend_hash_find w.pools (mongo_util_pool__get_id endpoint_A))
      = Except.ok none
    ∧ (run two_endpoint_world [Op.init 100 0, Op.init 0 30, Op.get 0 (some 7)]).map
        (fun w => ((w.monitor 0).in_use, (w.monitor 0).in_pool, dial_calls w.log))
      = Except.ok (1, 0, 1)
    ∧ (run two_endpoint_world [Op.init 100 0, Op.init 0 30, Op.get 0 (some 7), Op.done 0]).map
        (fun w => ((w.monitor 0).in_use, (w.monitor 0).in_pool, dial_calls w.log))
      = Except.ok (1, 1, 1)
    ∧ (run two_endpoint_world
          [Op.init 100 0, Op.init 0 30, Op.get 0 (some 7), Op.done 0, Op.get 0 (some 8)]).map
        (fun w => ((w.monitor 0).in_use, (w.monitor 0).in_pool, dial_calls w.log))
      = Except.ok (2, 0, 1) := by
  decide!

/-- C2 (the code on a failing run): 51 handles acquire and then release; right
after the 51st release the idle stack holds 51 connections and `in_pool = 51`, more
than 50. The walk of `mongo_util_pool__stack_push` stops on the 51st node and severs
the chain after it. -/
theorem release_51_keeps_51 :
    (run fresh_world (acquire_all 51 ++ release_all 51)).map
        (fun w => ((w.monitor 1).top.length, (w.monitor 1).in_pool))
      = Except.ok (51, 51) := by
  decide!

/-- C3 (the code on the scenario of the claim): 60 handles holding the distinct
connections `1 .. 60` release in that order on an empty idle stack; the stack then
holds the 51 connections `60, 59, .., 10` and exactly the 9 connections `1 .. 9` were
closed, not 50 kept and 10 closed. -/
theorem release_60_keeps_51 :
    (run fresh_world (acquire_all 60)).map (fun w => (w.monitor 1).top) = Except.ok []
    ∧ (run fresh_world (acquire_all 60 ++ release_all 60)).map
        (fun w => ((w.monitor 1).top, closed_sockets w.log))
      = Except.ok ((List.range 51).map (fun i => 60 - (i : Int)),
          (List.range 9).map (fun i => (i : Int) + 1))
    ∧ (run fresh_world (acquire_all 60 ++ release_all 60)).map
        (fun w => ((w.monitor 1).top.length, (closed_sockets w.log).length))
      = Except.ok (51, 9) := by
  decide!

/-- C4 (the code on a failing run): two `init` calls leave a zero-valued monitor in
the table; one handle then acquires (the dial succeeds) and releases, and the servers
chain is empty while `in_use = 1`. A second handle then acquires the pooled
connection: the chain is still empty while `in_use = 2`. -/
theorem active_count_diverges :
    (run fresh_world [Op.init 1 0, Op.init 1 0]).map
        (fun w => zend_hash_find w.pools (mongo_util_pool__get_id endpoint_A))
      = Except.ok (some zero_monitor)
    ∧ (run fresh_world [Op.init 1 0, Op.init 1 0, Op.get 1 (some 1), Op.done 1]).map
        (fun w => ((w.monitor 1).servers, (w.monitor 1).in_use))
      = Except.ok ([], 1)
    ∧ (run fresh_world
          [Op.init 1 0, Op.init 1 0, Op.get 1 (some 1), Op.done 1, Op.get 2 (some 2)]).map
        (fun w => ((w.monitor 1).servers, (w.monitor 1).in_use))
      = Except.ok ([], 2) := by
  decide!

/-- C5 (the code on a failing run): two `init` calls leave a zero-valued monitor in
the table; one handle then acquires (the only dial, which succeeds) and releases, and
`in_use + in_pool = 2` while one connection was dialed. -/
theorem counters_exceed_dials :
    (run fresh_world [Op.init 1 0, Op.init 1 0]).map
        (fun w => (zend_hash_find w.pools (mongo_util_pool__get_id endpoint_A),
          dials_succeeded w.log))
      = Except.ok (some zero_monitor, 0)
    ∧ (run fresh_world [Op.init 1 0, Op.init 1 0, Op.get 1 (some 1), Op.done 1]).map
        (fun w => ((w.monitor 1).in_use + (w.monitor 1).in_pool, dials_succeeded w.log))
      = Except.ok (2, 1) := by
  decide!

/-- C10 (the code on two failing runs, on the monitor two `init` calls stored). With
one idle connection and the active handle 1, `fail` on handle 1 with a failing
reconnect does not return: the loop `while (top)` of
`mongo_util_pool__close_connections` never updates `top` and pops the emptied stack.
With no idle connection and the active handle 1 (handles 2 and 3 were acquired too,
handle 2 released), the flush returns and leaves `in_use = 2`, not 0. -/
theorem failed_flush_diverges :
    (run fresh_world
          [Op.init 1 0, Op.init 1 0, Op.get 1 (some 1), Op.get 2 (some 2), Op.done 2]).map
        (fun w => ((w.monitor 1).top, (w.monitor 1).servers)) = Except.ok ([2], [1])
    ∧ (run fresh_world
          [Op.init 1 0, Op.init 1 0, Op.get 1 (some 1), Op.get 2 (some 2), Op.done 2,
            Op.failed 1 none]).map
        (fun w => w.monitor 1) = Except.error Fault.null_deref
    ∧ (run fresh_world
          [Op.init 1 0, Op.init 1 0, Op.get 1 (some 1), Op.get 2 (some 2), Op.done 2,
            Op.get 3 (some 3)]).map
        (fun w => ((w.monitor 1).top, (w.monitor 1).servers)) = Except.ok ([], [1])
    ∧ (run fresh_world
          [Op.init 1 0, Op.init 1 0, Op.get 1 (some 1), Op.get 2 (some 2), Op.done 2,
            Op.get 3 (some 3), Op.failed 1 none]).map
        (fun w => ((w.monitor 1).top, (w.monitor 1).servers, (w.monitor 1).in_pool,
          (w.monitor 1).in_use, closed_sockets w.log))
      = Except.ok ([], [], 0, 2, [1]) := by
  decide!

/-! ## The registry -/

/-- A key just stored is found. -/
theorem zend_hash_find_update_same (pools : HashTable) (id : String) (monitor : stack_monitor) :
    zend_hash_find (zend_hash_update pools id monitor) id = some monitor := by
  induction pools with
  | nil => simp [zend_hash_update, zend_hash_find]
  | cons entry rest ih =>
    obtain ⟨key, old⟩ := entry
    by_cases h : key = id
    · simp [zend_hash_update, zend_hash_find, h]
    · simp [zend_hash_update, zend_hash_find, h, ih]

/-- Storing under one key leaves the entries of the other keys alone. -/
theorem zend_hash_find_update_other (pools : HashTable) (id other : String)
    (monitor : stack_monitor) (h : other ≠ id) :
    zend_hash_find (zend_hash_update pools id monitor) other = zend_hash_find pools other := by
  induction pools with
  | nil =>
    have h' : ¬ id = other := fun e => h e.symm
    simp [zend_hash_update, zend_hash_find, h']
  | cons entry rest ih =>
    obtain ⟨key, old⟩ := entry
    by_cases hk : key = id
    · subst hk
      have h' : ¬ key = other := fun e => h e.symm
      simp [zend_hash_update, zend_hash_find, h']
    · by_cases ho : key = other
      · subst ho
        simp [zend_hash_update, zend_hash_find, hk]
      · simp [zend_hash_update, zend_hash_find, hk, ho, ih]

/-- After an operation stored a monitor under the id of a handle, the handle resolves to it. -/
theorem get_monitor_update (pools : HashTable) (server : mongo_server) (id : String)
    (monitor : stack_monitor) (h : mongo_util_pool__get_id server = id) :
    mongo_util_pool__get_monitor (zend_hash_update pools id monitor) server = monitor := by
  simp [mongo_util_pool__get_monitor, h, zend_hash_find_update_same]

/-- Rebinding the socket and the flag of a handle changes the id of no handle. -/
theorem get_id_heap_set (heap : Heap) (server : ServerPtr) (socket : Socket) (connected : Bool)
    (p : ServerPtr) :
    mongo_util_pool__get_id
        (heap.set server { heap server with socket := socket, connected := connected } p)
      = mongo_util_pool__get_id (heap p) := by
  unfold Heap.set
  split
  · next h => subst h; rfl
  · rfl

/-- Whatever a call stores for one key, the entries of the other keys stay. -/
theorem zend_hash_find_registry_after_other (w : World) (id other : String)
    (monitor : stack_monitor) (h : other ≠ id) :
    zend_hash_find (registry_after w id monitor) other = zend_hash_find w.pools other := by
  unfold registry_after
  split
  · exact zend_hash_find_update_other _ _ _ _ h
  · split
    · rfl
    · exact zend_hash_find_update_other _ _ _ _ h

/-- After a call on a stored monitor the handles of its key resolve to what the call
made of it. -/
theorem get_monitor_registry_after_stored (w : World) (server : mongo_server) (id : String)
    (monitor : stack_monitor) (h : mongo_util_pool__get_id server = id)
    (hs : zend_hash_find w.pools id ≠ none) :
    mongo_util_pool__get_monitor (registry_after w id monitor) server = monitor := by
  unfold registry_after
  split
  · exact get_monitor_update _ _ _ _ h
  · next hn => exact absurd hn hs

/-- After a call on a key with no entry the handles of the key resolve to a zeroed
monitor, whatever the call made of its struct. -/
theorem get_monitor_registry_after_absent (w : World) (server : mongo_server) (id : String)
    (monitor : stack_monitor) (h : mongo_util_pool__get_id server = id)
    (hs : zend_hash_find w.pools id = none) :
    mongo_util_pool__get_monitor (registry_after w id monitor) server = zero_monitor := by
  unfold registry_after
  rw [hs]
  simp only
  split
  · simp [mongo_util_pool__get_monitor, h, hs]
  · exact get_monitor_update _ _ _ _ h

/-- A call that leaves its monitor as it found it leaves the monitor of its key as it
was, stored or not. -/
theorem get_monitor_registry_after_same (w : World) (server other : mongo_server)
    (h : mongo_util_pool__get_id other = mongo_util_pool__get_id server) :
    mongo_util_pool__get_monitor
        (registry_after w (mongo_util_pool__get_id server)
          (mongo_util_pool__get_monitor w.pools server)) other
      = mongo_util_pool__get_monitor w.pools server := by
  cases hs : zend_hash_find w.pools (mongo_util_pool__get_id server) with
  | none =>
    rw [get_monitor_registry_after_absent _ _ _ _ h hs]
    simp [mongo_util_pool__get_monitor, hs]
  | some stored =>
    exact get_monitor_registry_after_stored _ _ _ _ h (by simp [hs])

/-- A stored key resolves whatever the allocator answers. -/
theorem monitor_resolved_stored (w : World) (server : mongo_server) (alloc : Bool)
    (hs : zend_hash_find w.pools (mongo_util_pool__get_id server) ≠ none) :
    monitor_resolved w server alloc = true := by
  unfold monitor_resolved
  cases h : zend_hash_find w.pools (mongo_util_pool__get_id server) with
  | none => exact absurd h hs
  | some stored => simp

/-! ## The fresh process -/

/-- Every call but the shutdown leaves a process that is no longer fresh; a fresh
process that shuts down with an empty table keeps it empty. -/
theorem step_preserves_fresh_empty (w w1 : World) (op : Op)
    (h : w.fresh = true → w.pools = []) (hstep : step w op = Except.ok w1) :
    w1.fresh = true → w1.pools = [] := by
  cases op with
  | init server timeout alloc =>
    simp only [step, Except.ok.injEq] at hstep
    subst hstep
    unfold mongo_util_pool_init
    split <;> simp
  | get server dial alloc =>
    simp only [step] at hstep
    split at hstep
    · simp at hstep
    · next w2 status hget =>
      simp only [Except.ok.injEq] at hstep
      subst hstep
      unfold mongo_util_pool_get at hget
      split at hget
      · simp only at hget
        split at hget
        · split at hget
          · simp at hget
          · simp only [Except.ok.injEq, Prod.mk.injEq] at hget
            obtain ⟨hw, -⟩ := hget
            subst hw
            simp
        · cases dial with
          | some socket =>
            simp only [mongo_util_pool__connect, dial_and_authenticate, Except.ok.injEq,
              Prod.mk.injEq] at hget
            obtain ⟨hw, -⟩ := hget
            subst hw
            simp
          | none =>
            simp only [mongo_util_pool__connect, dial_and_authenticate, Except.ok.injEq,
              Prod.mk.injEq] at hget
            obtain ⟨hw, -⟩ := hget
            subst hw
            simp
      · simp only [Except.ok.injEq, Prod.mk.injEq] at hget
        obtain ⟨hw, -⟩ := hget
        subst hw
        simp
  | done server alloc =>
    simp only [step] at hstep
    unfold mongo_util_pool_done at hstep
    split at hstep
    · simp only at hstep
      split at hstep
      · split at hstep
        · simp at hstep
        · simp only [Except.ok.injEq] at hstep
          subst hstep
          simp
      · simp only [Except.ok.injEq] at hstep
        subst hstep
        simp
    · simp only [Except.ok.injEq] at hstep
      subst hstep
      simp
  | failed server dial alloc =>
    simp only [step] at hstep
    unfold mongo_util_pool_failed at hstep
    split at hstep
    · cases dial with
      | some socket =>
        simp only [mongo_util_pool__connect, dial_and_authenticate, Except.ok.injEq] at hstep
        subst hstep
        simp
      | none =>
        simp only [mongo_util_pool__connect, dial_and_authenticate] at hstep
        split at hstep
        · simp at hstep
        · simp only [Except.ok.injEq] at hstep
          subst hstep
          simp
    · simp only [Except.ok.injEq] at hstep
      subst hstep
      simp
  | shutdown =>
    intro hf
    simp only [step, mongo_util_pool_shutdown] at hstep
    split at hstep
    · simp at hstep
    · next pools1 heap1 log1 hloop =>
      simp only [Except.ok.injEq] at hstep
      subst hstep
      simp only at hf
      rw [h hf] at hloop
      simp only [shutdown_loop, Except.ok.injEq, Prod.mk.injEq] at hloop
      exact hloop.1.symm

/-- In every state reached from the fresh process the flag `fresh` holds only together
with an empty table: a lookup in a fresh process never finds its key. -/
theorem reachable_fresh_empty (heap : Heap) (log : List Event) (ops : List Op) (w1 : World)
    (hrun : run { pools := [], heap := heap, log := log } ops = Except.ok w1) :
    w1.fresh = true → w1.pools = [] := by
  have hall : ∀ (ops : List Op) (w w2 : World), (w.fresh = true → w.pools = []) →
      run w ops = Except.ok w2 → (w2.fresh = true → w2.pools = []) := by
    intro ops
    induction ops with
    | nil =>
      intro w w2 h hr
      simp only [run, Except.ok.injEq] at hr
      subst hr
      exact h
    | cons op ops ih =>
      intro w w2 h hr
      simp only [run] at hr
      split at hr
      · simp at hr
      · next w3 hstep => exact ih w3 w2 (step_preserves_fresh_empty w w3 op h hstep) hr
  exact hall ops _ w1 (fun _ => rfl) hrun

/-! ## The timeout -/

/-- A monitor with a non-zero timeout is stored in the table. -/
theorem stored_of_timeout (w : World) (server : ServerPtr)
    (ht : (w.monitor server).timeout ≠ 0) :
    zend_hash_find w.pools (mongo_util_pool__get_id (w.heap server)) ≠ none := by
  intro hn
  apply ht
  simp [World.monitor, mongo_util_pool__get_monitor, hn, zero_monitor]

/-- On a key with no entry `mongo_util_pool_init` sets the timeout of a struct the
table never holds: the handle resolves to a monitor with timeout 0 afterwards. -/
theorem init_absent_timeout_lost (w : World) (server : ServerPtr) (timeout : Int)
    (alloc : Bool)
    (hs : zend_hash_find w.pools (mongo_util_pool__get_id (w.heap server)) = none) :
    ((mongo_util_pool_init w server timeout alloc).1.monitor server).timeout = 0 := by
  unfold mongo_util_pool_init
  split
  · simp only [World.monitor]
    rw [get_monitor_registry_after_absent _ _ _ _ rfl hs]
    rfl
  · simp [World.monitor, mongo_util_pool__get_monitor, hs, zero_monitor]

/-- C6 (amended): on a monitor whose timeout is already non-zero, `mongo_util_pool_init`
succeeds whatever the allocator answers, a non-zero `timeout` becomes the timeout of
the monitor (the last non-zero value wins), and a zero `timeout` leaves it as it was. -/
theorem init_sets_timeout (w : World) (server : ServerPtr) (timeout : Int) (alloc : Bool)
    (ht : (w.monitor server).timeout ≠ 0) :
    (mongo_util_pool_init w server timeout alloc).2 = Status.SUCCESS
    ∧ ((mongo_util_pool_init w server timeout alloc).1.monitor server).timeout
      = if timeout ≠ 0 then timeout else (w.monitor server).timeout := by
  have hs := stored_of_timeout w server ht
  have hr := monitor_resolved_stored w (w.heap server) alloc hs
  simp only [mongo_util_pool_init, hr, if_true, World.monitor, true_and]
  rw [get_monitor_registry_after_stored _ _ _ _ rfl hs]
  split <;> rfl

/-- Witness of `init_sets_timeout`: after three `init` calls, the last with timeout
30, the stored monitor has timeout 30; `init` with timeout 60 sets it to 60 although
the allocator would fail. -/
theorem init_sets_timeout_witness :
    ((world_after [Op.init 0 0, Op.init 0 0, Op.init 0 30]).monitor 0).timeout ≠ 0
    ∧ (mongo_util_pool_init (world_after [Op.init 0 0, Op.init 0 0, Op.init 0 30]) 0 60
        false).2 = Status.SUCCESS
    ∧ ((mongo_util_pool_init (world_after [Op.init 0 0, Op.init 0 0, Op.init 0 30]) 0 60
        false).1.monitor 0).timeout
      = if (60 : Int) ≠ 0 then 60
        else ((world_after [Op.init 0 0, Op.init 0 0, Op.init 0 30]).monitor 0).timeout :=
  ⟨by decide!,
    init_sets_timeout (world_after [Op.init 0 0, Op.init 0 0, Op.init 0 30]) 0 60 false
      (by decide!)⟩

/-- C6 (counterexample): three `init` calls, the last with timeout 30, leave a stored
monitor whose timeout is 30; `init` with timeout 60 then leaves the timeout at 60,
not at 30. -/
theorem init_overrides_timeout :
    ((world_after [Op.init 0 0, Op.init 0 0, Op.init 0 30]).monitor 0).timeout = 30
    ∧ (60 : Int) ≠ 0
    ∧ ((mongo_util_pool_init (world_after [Op.init 0 0, Op.init 0 0, Op.init 0 30]) 0
        60).1.monitor 0).timeout = 60
    ∧ ((mongo_util_pool_init (world_after [Op.init 0 0, Op.init 0 0, Op.init 0 30]) 0
        60).1.monitor 0).timeout
      ≠ ((world_after [Op.init 0 0, Op.init 0 0, Op.init 0 30]).monitor 0).timeout := by
  decide!

/-! ## Connection ids -/

/-- Two strings cut at the first occurrence of a separator agree part by part. -/
theorem split_at_separator (c : Char) (a1 a2 b1 b2 : List Char) (h1 : c ∉ a1) (h2 : c ∉ a2)
    (h : a1 ++ c :: b1 = a2 ++ c :: b2) : a1 = a2 ∧ b1 = b2 := by
  induction a1 generalizing a2 with
  | nil =>
    cases a2 with
    | nil => simpa using h
    | cons y ys =>
      simp only [List.nil_append, List.cons_append, List.cons.injEq] at h
      exact absurd (h.1 ▸ List.mem_cons_self _ _) h2
  | cons x xs ih =>
    cases a2 with
    | nil =>
      simp only [List.nil_append, List.cons_append, List.cons.injEq] at h
      exact absurd (h.1 ▸ List.mem_cons_self _ _) h1
    | cons y ys =>
      simp only [List.cons_append, List.cons.injEq] at h
      have hx : c ∉ xs := fun hm => h1 (List.mem_cons_of_mem _ hm)
      have hy : c ∉ ys := fun hm => h2 (List.mem_cons_of_mem _ hm)
      obtain ⟨e1, e2⟩ := ih ys hx hy h.2
      exact ⟨by rw [h.1, e1], e2⟩

/-- The characters of an id: a prefix made of host, port and db, then `username.password`. -/
theorem get_id_data (server : mongo_server) :
    (mongo_util_pool__get_id server).data
      = (server.host ++ ":" ++ toString server.port ++ "." ++ server.db.getD "" ++ ".").data
        ++ ((server.username.getD "").data ++ '.' :: (server.password.getD "").data) := by
  simp [mongo_util_pool__get_id, String.data_append]

/-- With host, port and db fixed, two ids agree exactly when their `username.password` parts do. -/
theorem get_id_eq_iff (s1 s2 : mongo_server) (hhost : s1.host = s2.host)
    (hport : s1.port = s2.port) (hdb : s1.db = s2.db) :
    mongo_util_pool__get_id s1 = mongo_util_pool__get_id s2
      ↔ (s1.username.getD "").data ++ '.' :: (s1.password.getD "").data
        = (s2.username.getD "").data ++ '.' :: (s2.password.getD "").data := by
  constructor
  · intro h
    have hd := congrArg String.data h
    rw [get_id_data, get_id_data, hhost, hport, hdb] at hd
    exact List.append_cancel_left hd
  · intro h
    apply String.ext
    rw [get_id_data, get_id_data, hhost, hport, hdb, h]

/-- C7 (counterexample): for the same host, port and database the credentials
`("a.b", "c")` and `("a", "b.c")` differ and get the same id. -/
theorem get_id_dot_collision :
    (("a.b", "c") : String × String) ≠ ("a", "b.c")
    ∧ mongo_util_pool__get_id (with_credentials (some "a.b") (some "c"))
      = mongo_util_pool__get_id (with_credentials (some "a") (some "b.c")) := by
  decide!

/-- C7 (amended): for fixed host, port and database, two (username, password) pairs,
a `NULL` field read as the empty string, get distinct ids whenever the pairs differ
and neither username contains the character `.`. -/
theorem get_id_separates_credentials (s1 s2 : mongo_server) (hhost : s1.host = s2.host)
    (hport : s1.port = s2.port) (hdb : s1.db = s2.db)
    (h1 : '.' ∉ (s1.username.getD "").data) (h2 : '.' ∉ (s2.username.getD "").data)
    (hne : (s1.username.getD "", s1.password.getD "")
      ≠ (s2.username.getD "", s2.password.getD "")) :
    mongo_util_pool__get_id s1 ≠ mongo_util_pool__get_id s2 := by
  intro h
  rw [get_id_eq_iff s1 s2 hhost hport hdb] at h
  obtain ⟨hu, hp⟩ := split_at_separator '.' _ _ _ _ h1 h2 h
  exact hne (Prod.ext (String.ext hu) (String.ext hp))

/-- Witness of `get_id_separates_credentials`: the credentials `alice` / `a.b` and
`bob` / `a.b` on endpoint A. -/
theorem get_id_separates_credentials_witness :
    '.' ∉ ("alice" : String).data ∧ '.' ∉ ("bob" : String).data
    ∧ mongo_util_pool__get_id (with_credentials (some "alice") (some "a.b"))
      ≠ mongo_util_pool__get_id (with_credentials (some "bob") (some "a.b")) :=
  ⟨by decide, by decide,
    get_id_separates_credentials (with_credentials (some "alice") (some "a.b"))
      (with_credentials (some "bob") (some "a.b")) rfl rfl rfl (by decide) (by decide)
      (by decide)⟩

/-- C8 (counterexample): two handles that differ only in username, `NULL` for one
and the empty string for the other, get the same id. -/
theorem get_id_null_username_collision :
    (none : Option String) ≠ some ""
    ∧ mongo_util_pool__get_id (with_credentials none (some "secret"))
      = mongo_util_pool__get_id (with_credentials (some "") (some "secret")) := by
  decide!

/-- C8 (amended): two handles with the same host, port, database and password whose
usernames differ, a `NULL` username read as the empty string, get different ids, and
storing the monitor of one leaves the entry of the other alone. -/
theorem get_id_separates_usernames (s1 s2 : mongo_server) (hhost : s1.host = s2.host)
    (hport : s1.port = s2.port) (hdb : s1.db = s2.db) (hpw : s1.password = s2.password)
    (hne : s1.username.getD "" ≠ s2.username.getD "") :
    mongo_util_pool__get_id s1 ≠ mongo_util_pool__get_id s2
    ∧ ∀ (pools : HashTable) (monitor : stack_monitor),
        zend_hash_find (zend_hash_update pools (mongo_util_pool__get_id s1) monitor)
            (mongo_util_pool__get_id s2)
          = zend_hash_find pools (mongo_util_pool__get_id s2) := by
  have hid : mongo_util_pool__get_id s1 ≠ mongo_util_pool__get_id s2 := by
    intro h
    rw [get_id_eq_iff s1 s2 hhost hport hdb, hpw] at h
    exact hne (String.ext (List.append_cancel_right h))
  exact ⟨hid, fun pools monitor => zend_hash_find_update_other pools _ _ monitor (Ne.symm hid)⟩

/-- Witness of `get_id_separates_usernames`: the usernames `alice` and `bob` with
the password `secret` on endpoint A. -/
theorem get_id_separates_usernames_witness :
    ("alice" : String) ≠ "bob"
    ∧ mongo_util_pool__get_id (with_credentials (some "alice") (some "secret"))
      ≠ mongo_util_pool__get_id (with_credentials (some "bob") (some "secret")) :=
  ⟨by decide,
    (get_id_separates_usernames (with_credentials (some "alice") (some "secret"))
      (with_credentials (some "bob") (some "secret")) rfl rfl rfl rfl (by decide)).1⟩

/-! ## Push and pop -/

/-- The walk stops after `50 - count` nodes, or at the end of the chain. -/
theorem stack_push_walk_eq (chain : List Socket) (count : Nat) :
    stack_push_walk chain count = (chain.take (50 - count), chain.drop (50 - count)) := by
  induction chain generalizing count with
  | nil => simp [stack_push_walk]
  | cons socket next ih =>
    by_cases h : count < 50
    · have e : 50 - count = (50 - (count + 1)) + 1 := by omega
      simp only [stack_push_walk, h, if_true, ih]
      rw [e, List.take_succ_cons, List.drop_succ_cons]
    · have e : 50 - count = 0 := by omega
      simp [stack_push_walk, h, e]

/-- The eviction loop closes every severed node and decrements `in_pool` for each. -/
theorem stack_push_evict_eq (chain : List Socket) (in_pool : Int) (log : List Event) :
    stack_push_evict chain in_pool log
      = (in_pool - chain.length, log ++ chain.map Event.close) := by
  induction chain generalizing in_pool log with
  | nil => simp [stack_push_evict]
  | cons socket next ih =>
    simp only [stack_push_evict, ih, MONGO_UTIL_DISCONNECT, List.length_cons, List.map_cons,
      List.append_assoc, List.singleton_append, Prod.mk.injEq, and_true]
    push_cast
    ring

/-- On a monitor whose `in_pool` is the length of its idle stack, pushing a connected
handle returns; the stack keeps its 51 top nodes and the rest is closed. -/
theorem stack_push_ok (monitor : stack_monitor) (server : mongo_server) (log : List Event)
    (hc : server.connected = true) (hinv : (monitor.top.length : Int) = monitor.in_pool) :
    mongo_util_pool__stack_push monitor server log
      = Except.ok
          ({ monitor with
              top := (server.socket :: monitor.top).take 51,
              in_pool := (((server.socket :: monitor.top).take 51).length : Int) },
            log ++ ((server.socket :: monitor.top).drop 51).map Event.close) := by
  simp only [mongo_util_pool__stack_push, hc, if_true]
  by_cases h : monitor.in_pool + 1 > 50
  · have hlen : 50 ≤ monitor.top.length := by omega
    obtain ⟨before, socket, next, hl, hb⟩ : ∃ before socket next,
        server.socket :: monitor.top = before ++ socket :: next ∧ before.length = 50 := by
      cases hd : (server.socket :: monitor.top).drop 50 with
      | nil =>
        have := congrArg List.length hd
        simp only [List.length_drop, List.length_cons, List.length_nil] at this
        omega
      | cons socket next =>
        refine ⟨(server.socket :: monitor.top).take 50, socket, next, ?_, ?_⟩
        · rw [← hd, List.take_append_drop]
        · simp only [List.length_take, List.length_cons]
          omega
    have hb1 : (before ++ [socket]).length = 51 := by simp [hb]
    have hn : (monitor.top.length : Int) + 1 = 51 + next.length := by
      have := congrArg List.length hl
      simp only [List.length_cons, List.length_append, hb] at this
      omega
    have e : before ++ socket :: next = (before ++ [socket]) ++ next := by simp
    simp only [h, if_true, stack_push_walk_eq, Nat.sub_zero, hl, List.take_left' hb,
      List.drop_left' hb, stack_push_evict_eq]
    rw [e, List.take_left' hb1, List.drop_left' hb1, hb1]
    congr 2
    simp only [stack_monitor.mk.injEq, true_and, and_true]
    omega
  · have hlen : monitor.top.length < 50 := by omega
    have ht : (server.socket :: monitor.top).take 51 = server.socket :: monitor.top := by
      apply List.take_of_length_le
      simp only [List.length_cons]
      omega
    have hd : (server.socket :: monitor.top).drop 51 = [] := by
      apply List.drop_of_length_le
      simp only [List.length_cons]
      omega
    simp only [h, if_false, ht, hd, List.map_nil, List.append_nil, List.length_cons]
    congr 2
    simp only [stack_monitor.mk.injEq, true_and, and_true]
    omega

/-- Unlinking a server leaves the idle stack alone. -/
theorem rm_server_ptr_top (monitor : stack_monitor) (server : ServerPtr) :
    (mongo_util_pool__rm_server_ptr monitor server).top = monitor.top := by
  unfold mongo_util_pool__rm_server_ptr
  split
  · rfl
  · split
    · rfl
    · split <;> rfl

/-- Unlinking a server leaves `in_pool` alone. -/
theorem rm_server_ptr_in_pool (monitor : stack_monitor) (server : ServerPtr) :
    (mongo_util_pool__rm_server_ptr monitor server).in_pool = monitor.in_pool := by
  unfold mongo_util_pool__rm_server_ptr
  split
  · rfl
  · split
    · rfl
    · split <;> rfl

/-- Releasing a connected handle on a stored monitor whose `in_pool` is the length of
its idle stack returns, leaves the heap alone and pushes the socket of the handle. -/
theorem done_connected (w : World) (server : ServerPtr)
    (hc : (w.heap server).connected = true)
    (hinv : ((w.monitor server).top.length : Int) = (w.monitor server).in_pool)
    (hs : zend_hash_find w.pools (mongo_util_pool__get_id (w.heap server)) ≠ none) :
    ∃ w1, mongo_util_pool_done w server = Except.ok w1
      ∧ w1.heap = w.heap
      ∧ w1.log = w.log
          ++ (((w.heap server).socket :: (w.monitor server).top).drop 51).map Event.close
      ∧ zend_hash_find w1.pools (mongo_util_pool__get_id (w.heap server)) ≠ none
      ∧ ∀ other, mongo_util_pool__get_id (w.heap other) = mongo_util_pool__get_id (w.heap server) →
          (w1.monitor other).top = ((w.heap server).socket :: (w.monitor server).top).take 51
          ∧ (w1.monitor other).in_pool
            = ((((w.heap server).socket :: (w.monitor server).top).take 51).length : Int) := by
  have hinv' : ((mongo_util_pool__rm_server_ptr (w.monitor server) server).top.length : Int)
      = (mongo_util_pool__rm_server_ptr (w.monitor server) server).in_pool := by
    rw [rm_server_ptr_top, rm_server_ptr_in_pool]
    exact hinv
  have hp := stack_push_ok _ (w.heap server) w.log hc hinv'
  rw [rm_server_ptr_top] at hp
  have hr := monitor_resolved_stored w (w.heap server) true hs
  have e : mongo_util_pool_done w server
      = Except.ok
          { w with
            pools := registry_after w (mongo_util_pool__get_id (w.heap server))
              { mongo_util_pool__rm_server_ptr (w.monitor server) server with
                top := ((w.heap server).socket :: (w.monitor server).top).take 51,
                in_pool := ((((w.heap server).socket :: (w.monitor server).top).take 51).length
                  : Int) },
            log := w.log
              ++ (((w.heap server).socket :: (w.monitor server).top).drop 51).map Event.close,
            fresh := false } := by
    unfold World.monitor at hp ⊢
    simp only [mongo_util_pool_done, hr, hc, if_true, hp]
  refine ⟨_, e, rfl, rfl, ?_, ?_⟩
  · have hm := get_monitor_registry_after_stored w (w.heap server) _
      { mongo_util_pool__rm_server_ptr (w.monitor server) server with
        top := ((w.heap server).socket :: (w.monitor server).top).take 51,
        in_pool := ((((w.heap server).socket :: (w.monitor server).top).take 51).length
          : Int) } rfl hs
    intro hn
    simp only [mongo_util_pool__get_monitor, hn] at hm
    have := congrArg stack_monitor.top hm
    simp [zero_monitor] at this
  · intro other ho
    simp only [World.monitor, get_monitor_registry_after_stored _ _ _ _ ho hs, and_self]

/-- A monitor with an idle connection is stored in the table. -/
theorem stored_of_top (w : World) (server : ServerPtr) (socket : Socket) (next : List Socket)
    (htop : (w.monitor server).top = socket :: next) :
    zend_hash_find w.pools (mongo_util_pool__get_id (w.heap server)) ≠ none := by
  intro hn
  simp [World.monitor, mongo_util_pool__get_monitor, hn, zero_monitor] at htop

/-- Acquiring on a monitor with an idle connection returns `SUCCESS`, binds the top
connection to the handle and logs nothing. -/
theorem get_pooled (w : World) (server : ServerPtr) (dial : Option Socket) (socket : Socket)
    (next : List Socket) (htop : (w.monitor server).top = socket :: next) :
    ∃ w1, mongo_util_pool_get w server dial = Except.ok (w1, Status.SUCCESS)
      ∧ w1.log = w.log
      ∧ (w1.heap server).socket = socket
      ∧ (w1.heap server).connected = true
      ∧ (∀ p, mongo_util_pool__get_id (w1.heap p) = mongo_util_pool__get_id (w.heap p))
      ∧ ∀ other, mongo_util_pool__get_id (w.heap other) = mongo_util_pool__get_id (w.heap server) →
          (w1.monitor other).top = next
          ∧ (w1.monitor other).in_pool = (w.monitor server).in_pool - 1
          ∧ (w1.monitor other).in_use = int_wrap ((w.monitor server).in_use + 1)
          ∧ (w1.monitor other).servers = (w.monitor server).servers := by
  have hs := stored_of_top w server socket next htop
  have hr := monitor_resolved_stored w (w.heap server) true hs
  have e : mongo_util_pool_get w server dial
      = Except.ok
          ({ w with
              pools := registry_after w (mongo_util_pool__get_id (w.heap server))
                { w.monitor server with
                  top := next, in_pool := (w.monitor server).in_pool - 1,
                  in_use := int_wrap ((w.monitor server).in_use + 1) },
              heap := w.heap.set server
                { w.heap server with socket := socket, connected := true },
              fresh := false },
            Status.SUCCESS) := by
    unfold World.monitor at htop ⊢
    simp only [mongo_util_pool_get, hr, if_true, htop, mongo_util_pool__stack_pop]
  refine ⟨_, e, rfl, ?_, ?_, ?_, ?_⟩
  · simp [Heap.set]
  · simp [Heap.set]
  · intro p
    exact get_id_heap_set w.heap server _ _ p
  · intro other ho
    have ho' : mongo_util_pool__get_id
        (w.heap.set server { w.heap server with socket := socket, connected := true } other)
        = mongo_util_pool__get_id (w.heap server) := by
      rw [get_id_heap_set]
      exact ho
    simp only [World.monitor, get_monitor_registry_after_stored _ _ _ _ ho' hs, and_self]

/-- C9: on a stored monitor whose `in_pool` is the length of its idle stack, with
connected handles `h1` and `h2` holding connections C1 and C2 and handles `a1` and `a2`
on the same endpoint, releasing `h1` then `h2` and acquiring with `a1` then `a2` returns
`SUCCESS` both times, binds C2 to `a1` and C1 to `a2`, and the two acquires leave the
log as it was: neither dials. -/
theorem lifo_reuse (w : World) (h1 h2 a1 a2 : ServerPtr) (d1 d2 : Option Socket)
    (hk2 : mongo_util_pool__get_id (w.heap h2) = mongo_util_pool__get_id (w.heap h1))
    (hk3 : mongo_util_pool__get_id (w.heap a1) = mongo_util_pool__get_id (w.heap h1))
    (hk4 : mongo_util_pool__get_id (w.heap a2) = mongo_util_pool__get_id (w.heap h1))
    (hc1 : (w.heap h1).connected = true) (hc2 : (w.heap h2).connected = true)
    (hinv : ((w.monitor h1).top.length : Int) = (w.monitor h1).in_pool)
    (hs : zend_hash_find w.pools (mongo_util_pool__get_id (w.heap h1)) ≠ none) :
    ∃ w1 w2 w3 w4,
      mongo_util_pool_done w h1 = Except.ok w1
      ∧ mongo_util_pool_done w1 h2 = Except.ok w2
      ∧ mongo_util_pool_get w2 a1 d1 = Except.ok (w3, Status.SUCCESS)
      ∧ mongo_util_pool_get w3 a2 d2 = Except.ok (w4, Status.SUCCESS)
      ∧ (w3.heap a1).socket = (w.heap h2).socket ∧ (w3.heap a1).connected = true
      ∧ (w4.heap a2).socket = (w.heap h1).socket ∧ (w4.heap a2).connected = true
      ∧ w3.log = w2.log ∧ w4.log = w2.log := by
  obtain ⟨w1, e1, hh1, -, hs1, hm1⟩ := done_connected w h1 hc1 hinv hs
  have hk2' : mongo_util_pool__get_id (w1.heap h2) = mongo_util_pool__get_id (w.heap h1) := by
    rw [hh1]; exact hk2
  have hc2' : (w1.heap h2).connected = true := by rw [hh1]; exact hc2
  have hinv1 : ((w1.monitor h2).top.length : Int) = (w1.monitor h2).in_pool := by
    rw [(hm1 h2 hk2).1, (hm1 h2 hk2).2]
  have hs1' : zend_hash_find w1.pools (mongo_util_pool__get_id (w1.heap h2)) ≠ none := by
    rw [hk2']; exact hs1
  obtain ⟨w2, e2, hh2, -, -, hm2⟩ := done_connected w1 h2 hc2' hinv1 hs1'
  have hk3' : mongo_util_pool__get_id (w1.heap a1) = mongo_util_pool__get_id (w1.heap h2) := by
    rw [hh1, hk3, hk2]
  have htop2 : (w2.monitor a1).top
      = (w.heap h2).socket :: (w.heap h1).socket :: ((w.monitor h1).top.take 50).take 49 := by
    rw [(hm2 a1 hk3').1, (hm1 h2 hk2).1, hh1]
    rfl
  obtain ⟨w3, e3, hl3, hs3, hcn3, hid3, hm3⟩ := get_pooled w2 a1 d1 _ _ htop2
  have hk4' : mongo_util_pool__get_id (w2.heap a2) = mongo_util_pool__get_id (w2.heap a1) := by
    rw [hh2, hh1, hk4, hk3]
  have htop3 : (w3.monitor a2).top
      = (w.heap h1).socket :: ((w.monitor h1).top.take 50).take 49 :=
    (hm3 a2 hk4').1
  obtain ⟨w4, e4, hl4, hs4, hcn4, -, -⟩ := get_pooled w3 a2 d2 _ _ htop3
  exact ⟨w1, w2, w3, w4, e1, e2, e3, e4, hs3, hcn3, hs4, hcn4, hl3, by rw [hl4, hl3]⟩

/-- Witness of `lifo_reuse`: handles 1 and 2 dialed the connections 11 and 12 and the
table holds the monitor of their endpoint; they release in that order and handles 3
and 4 acquire. -/
theorem lifo_reuse_witness :
    ((world_after [Op.get 1 (some 11), Op.get 2 (some 12)]).heap 1).connected = true
    ∧ ((world_after [Op.get 1 (some 11), Op.get 2 (some 12)]).heap 2).connected = true
    ∧ zend_hash_find (world_after [Op.get 1 (some 11), Op.get 2 (some 12)]).pools
        (mongo_util_pool__get_id
          ((world_after [Op.get 1 (some 11), Op.get 2 (some 12)]).heap 1)) ≠ none
    ∧ ∃ w1 w2 w3 w4,
      mongo_util_pool_done (world_after [Op.get 1 (some 11), Op.get 2 (some 12)]) 1
        = Except.ok w1
      ∧ mongo_util_pool_done w1 2 = Except.ok w2
      ∧ mongo_util_pool_get w2 3 none = Except.ok (w3, Status.SUCCESS)
      ∧ mongo_util_pool_get w3 4 none = Except.ok (w4, Status.SUCCESS)
      ∧ (w3.heap 3).socket
        = ((world_after [Op.get 1 (some 11), Op.get 2 (some 12)]).heap 2).socket
      ∧ (w3.heap 3).connected = true
      ∧ (w4.heap 4).socket
        = ((world_after [Op.get 1 (some 11), Op.get 2 (some 12)]).heap 1).socket
      ∧ (w4.heap 4).connected = true
      ∧ w3.log = w2.log ∧ w4.log = w2.log :=
  ⟨by decide!, by decide!, by decide!,
    lifo_reuse (world_after [Op.get 1 (some 11), Op.get 2 (some 12)]) 1 2 3 4 none none
      (by decide!) (by decide!) (by decide!) (by decide!) (by decide!) (by decide!)
      (by decide!)⟩

/-! ## The idle stack and its counter -/

/-- A monitor found under a key is an entry of the table. -/
theorem zend_hash_find_mem (pools : HashTable) (id : String) (monitor : stack_monitor)
    (h : zend_hash_find pools id = some monitor) : (id, monitor) ∈ pools := by
  induction pools with
  | nil => simp [zend_hash_find] at h
  | cons entry rest ih =>
    obtain ⟨key, old⟩ := entry
    by_cases hk : key = id
    · simp only [zend_hash_find, hk, if_true, Option.some.injEq] at h
      subst hk
      subst h
      exact List.mem_cons_self _ _
    · simp only [zend_hash_find, hk, if_false] at h
      exact List.mem_cons_of_mem _ (ih h)

/-- Under the invariant the monitor a handle resolves to counts its idle stack. -/
theorem pool_invariant_get_monitor (pools : HashTable) (server : mongo_server)
    (h : pool_invariant pools) :
    ((mongo_util_pool__get_monitor pools server).top.length : Int)
      = (mongo_util_pool__get_monitor pools server).in_pool := by
  unfold mongo_util_pool__get_monitor
  split
  · next mptr hf => exact h _ (zend_hash_find_mem _ _ _ hf)
  · rfl

/-- Storing a monitor that counts its idle stack keeps the invariant. -/
theorem pool_invariant_update (pools : HashTable) (id : String) (monitor : stack_monitor)
    (h : pool_invariant pools) (hm : (monitor.top.length : Int) = monitor.in_pool) :
    pool_invariant (zend_hash_update pools id monitor) := by
  induction pools with
  | nil =>
    intro entry he
    simp only [zend_hash_update, List.mem_singleton] at he
    subst he
    exact hm
  | cons entry rest ih =>
    obtain ⟨key, old⟩ := entry
    have hrest : pool_invariant rest := fun e he => h e (List.mem_cons_of_mem _ he)
    intro e he
    by_cases hk : key = id
    · simp only [zend_hash_update, hk, if_true, List.mem_cons] at he
      rcases he with he | he
      · subst he
        exact hm
      · exact hrest e he
    · simp only [zend_hash_update, hk, if_false, List.mem_cons] at he
      rcases he with he | he
      · subst he
        exact h _ (List.mem_cons_self _ _)
      · exact ih hrest e he

/-- The loop `while (top)` returns only when `top` is `NULL`, and then does nothing. -/
theorem close_connections_stack_ok (top : List Socket) (fuel : Nat) (monitor : stack_monitor)
    (log : List Event) (result : stack_monitor × List Event)
    (h : close_connections_stack top fuel monitor log = Except.ok result) :
    top = [] ∧ result = (monitor, log) := by
  induction fuel generalizing monitor log with
  | zero => simp [close_connections_stack] at h
  | succ fuel ih =>
    cases top with
    | nil =>
      simp only [close_connections_stack, Except.ok.injEq] at h
      exact ⟨rfl, h.symm⟩
    | cons socket next =>
      simp only [close_connections_stack] at h
      split at h
      · simp at h
      · next current popped _ => exact absurd (ih popped _ h).1 (by simp)

/-- With `top` not `NULL` and fuel for more iterations than the stack has nodes, the loop
`while (top)` ends in the pop of the emptied stack, not for lack of fuel. -/
theorem close_connections_stack_fault (top : List Socket) (fuel : Nat) (monitor : stack_monitor)
    (log : List Event) (htop : top ≠ []) (hfuel : monitor.top.length < fuel) :
    close_connections_stack top fuel monitor log = Except.error Fault.null_deref := by
  induction fuel generalizing monitor log with
  | zero => omega
  | succ fuel ih =>
    cases top with
    | nil => exact absurd rfl htop
    | cons socket next =>
      cases hm : monitor.top with
      | nil => simp [close_connections_stack, mongo_util_pool__stack_pop, hm]
      | cons current rest =>
        simp only [close_connections_stack, mongo_util_pool__stack_pop, hm]
        apply ih
        simp only [hm, List.length_cons] at hfuel ⊢
        omega

/-- When the flush returns, the idle stack was empty; the flushed monitor has no idle
node and no server, and `in_pool` and the timeout are as before. -/
theorem close_connections_ok (monitor : stack_monitor) (heap : Heap) (log : List Event)
    (result : stack_monitor × Heap × List Event)
    (h : mongo_util_pool__close_connections monitor heap log = Except.ok result) :
    monitor.top = [] ∧ result.1.top = [] ∧ result.1.in_pool = monitor.in_pool
      ∧ result.1.servers = [] ∧ result.1.timeout = monitor.timeout := by
  simp only [mongo_util_pool__close_connections] at h
  split at h
  · simp at h
  · next popped log1 hs =>
    obtain ⟨ht, hr⟩ := close_connections_stack_ok _ _ _ _ _ hs
    simp only [Except.ok.injEq] at h
    subst h
    simp only [Prod.mk.injEq] at hr
    obtain ⟨hr1, -⟩ := hr
    subst hr1
    exact ⟨ht, rfl, rfl, rfl, rfl⟩

/-- The flush of a monitor with an idle connection does not return: it pops the
emptied stack. -/
theorem close_connections_fault (monitor : stack_monitor) (heap : Heap) (log : List Event)
    (htop : monitor.top ≠ []) :
    mongo_util_pool__close_connections monitor heap log = Except.error Fault.null_deref := by
  simp only [mongo_util_pool__close_connections]
  rw [close_connections_stack_fault _ _ _ _ htop (by simp)]


/-- Whatever a call stores, monitor or zeroed copy, the invariant is kept when the
monitor counts its idle stack. -/
theorem pool_invariant_registry_after (w : World) (id : String) (monitor : stack_monitor)
    (h : pool_invariant w.pools) (hm : (monitor.top.length : Int) = monitor.in_pool) :
    pool_invariant (registry_after w id monitor) := by
  unfold registry_after
  split
  · exact pool_invariant_update _ _ _ h hm
  · split
    · exact h
    · exact pool_invariant_update _ _ _ h rfl

/-- The function `mongo_util_pool_init` keeps the invariant. -/
theorem init_preserves_pool_invariant (w : World) (server : ServerPtr) (timeout : Int)
    (alloc : Bool) (h : pool_invariant w.pools) :
    pool_invariant (mongo_util_pool_init w server timeout alloc).1.pools := by
  have hm := pool_invariant_get_monitor w.pools (w.heap server) h
  unfold mongo_util_pool_init
  split
  · apply pool_invariant_registry_after _ _ _ h
    split
    · exact hm
    · exact hm
  · exact h

/-- Linking a server leaves the idle stack and `in_pool` alone. -/
theorem add_server_ptr_top (monitor : stack_monitor) (server : ServerPtr) :
    (mongo_util_pool__add_server_ptr monitor server).top = monitor.top
    ∧ (mongo_util_pool__add_server_ptr monitor server).in_pool = monitor.in_pool := by
  unfold mongo_util_pool__add_server_ptr
  split <;> exact ⟨rfl, rfl⟩

/-- The function `mongo_util_pool_get` keeps the invariant. -/
theorem get_preserves_pool_invariant (w w1 : World) (server : ServerPtr) (dial : Option Socket)
    (alloc : Bool) (status : Status) (h : pool_invariant w.pools)
    (hget : mongo_util_pool_get w server dial alloc = Except.ok (w1, status)) :
    pool_invariant w1.pools := by
  have hm := pool_invariant_get_monitor w.pools (w.heap server) h
  unfold mongo_util_pool_get at hget
  split at hget
  · simp only at hget
    split at hget
    · next socket next htop =>
      simp only [mongo_util_pool__stack_pop, htop, Except.ok.injEq, Prod.mk.injEq] at hget
      obtain ⟨hw, -⟩ := hget
      subst hw
      apply pool_invariant_registry_after _ _ _ h
      simp only [htop, List.length_cons] at hm ⊢
      omega
    · next htop =>
      cases dial with
      | some socket =>
        simp only [mongo_util_pool__connect, dial_and_authenticate, Except.ok.injEq,
          Prod.mk.injEq] at hget
        obtain ⟨hw, -⟩ := hget
        subst hw
        apply pool_invariant_registry_after _ _ _ h
        rw [(add_server_ptr_top _ _).1, (add_server_ptr_top _ _).2]
        exact hm
      | none =>
        simp only [mongo_util_pool__connect, dial_and_authenticate, Except.ok.injEq,
          Prod.mk.injEq] at hget
        obtain ⟨hw, -⟩ := hget
        subst hw
        exact pool_invariant_registry_after _ _ _ h hm
  · simp only [Except.ok.injEq, Prod.mk.injEq] at hget
    obtain ⟨hw, -⟩ := hget
    subst hw
    exact h

/-- The function `mongo_util_pool_done` keeps the invariant. -/
theorem done_preserves_pool_invariant (w w1 : World) (server : ServerPtr) (alloc : Bool)
    (h : pool_invariant w.pools)
    (hdone : mongo_util_pool_done w server alloc = Except.ok w1) :
    pool_invariant w1.pools := by
  have hm := pool_invariant_get_monitor w.pools (w.heap server) h
  have hrm : ((mongo_util_pool__rm_server_ptr
      (mongo_util_pool__get_monitor w.pools (w.heap server)) server).top.length : Int)
      = (mongo_util_pool__rm_server_ptr
          (mongo_util_pool__get_monitor w.pools (w.heap server)) server).in_pool := by
    rw [rm_server_ptr_top, rm_server_ptr_in_pool]
    exact hm
  unfold mongo_util_pool_done at hdone
  split at hdone
  · by_cases hc : (w.heap server).connected = true
    · simp only [hc, if_true, stack_push_ok _ _ _ hc hrm, Except.ok.injEq] at hdone
      subst hdone
      exact pool_invariant_registry_after _ _ _ h rfl
    · simp only [hc, Bool.false_eq_true, if_false, Except.ok.injEq] at hdone
      subst hdone
      exact pool_invariant_registry_after _ _ _ h hrm
  · simp only [Except.ok.injEq] at hdone
    subst hdone
    exact h

/-- The function `mongo_util_pool_failed` keeps the invariant. -/
theorem failed_preserves_pool_invariant (w w1 : World) (server : ServerPtr)
    (dial : Option Socket) (alloc : Bool) (h : pool_invariant w.pools)
    (hfailed : mongo_util_pool_failed w server dial alloc = Except.ok w1) :
    pool_invariant w1.pools := by
  have hm := pool_invariant_get_monitor w.pools (w.heap server) h
  unfold mongo_util_pool_failed at hfailed
  split at hfailed
  · cases dial with
    | some socket =>
      simp only [mongo_util_pool__connect, dial_and_authenticate, Except.ok.injEq] at hfailed
      subst hfailed
      exact pool_invariant_registry_after _ _ _ h hm
    | none =>
      simp only [mongo_util_pool__connect, dial_and_authenticate] at hfailed
      split at hfailed
      · simp at hfailed
      · next flushed heap1 log1 hcl =>
        simp only [Except.ok.injEq] at hfailed
        subst hfailed
        obtain ⟨ht, ht1, hp1, -, -⟩ := close_connections_ok _ _ _ _ hcl
        apply pool_invariant_registry_after _ _ _ h
        simp only at ht1 hp1
        rw [ht1, hp1, ← hm, ht]
  · simp only [Except.ok.injEq] at hfailed
    subst hfailed
    exact h

/-- The loop of `mongo_util_pool_shutdown` keeps the invariant. -/
theorem shutdown_loop_preserves_pool_invariant (pools pools1 : HashTable) (heap heap1 : Heap)
    (log log1 : List Event) (h : pool_invariant pools)
    (hloop : shutdown_loop pools heap log = Except.ok (pools1, heap1, log1)) :
    pool_invariant pools1 := by
  induction pools generalizing pools1 heap heap1 log log1 with
  | nil =>
    simp only [shutdown_loop, Except.ok.injEq, Prod.mk.injEq] at hloop
    obtain ⟨hp, -⟩ := hloop
    subst hp
    exact h
  | cons entry rest ih =>
    obtain ⟨id, monitor⟩ := entry
    have hrest : pool_invariant rest := fun e he => h e (List.mem_cons_of_mem _ he)
    have hm : (monitor.top.length : Int) = monitor.in_pool := h _ (List.mem_cons_self _ _)
    simp only [shutdown_loop] at hloop
    split at hloop
    · simp at hloop
    · next flushed heap2 log2 hcl =>
      split at hloop
      · simp at hloop
      · next rest1 heap3 log3 hrec =>
        simp only [Except.ok.injEq, Prod.mk.injEq] at hloop
        obtain ⟨hp, -⟩ := hloop
        subst hp
        obtain ⟨ht, ht1, hp1, -, -⟩ := close_connections_ok _ _ _ _ hcl
        intro e he
        simp only [List.mem_cons] at he
        rcases he with he | he
        · subst he
          simp only at ht1 hp1 ⊢
          rw [ht1, hp1, ← hm, ht]
        · exact ih _ _ _ _ _ hrest hrec e he

/-- Every call that returns keeps the invariant. -/
theorem step_preserves_pool_invariant (w w1 : World) (op : Op) (h : pool_invariant w.pools)
    (hstep : step w op = Except.ok w1) : pool_invariant w1.pools := by
  cases op with
  | init server timeout alloc =>
    simp only [step, Except.ok.injEq] at hstep
    subst hstep
    exact init_preserves_pool_invariant w server timeout alloc h
  | get server dial alloc =>
    simp only [step] at hstep
    split at hstep
    · simp at hstep
    · next w2 status hget =>
      simp only [Except.ok.injEq] at hstep
      subst hstep
      exact get_preserves_pool_invariant w _ server dial alloc status h hget
  | done server alloc => exact done_preserves_pool_invariant w w1 server alloc h hstep
  | failed server dial alloc =>
    exact failed_preserves_pool_invariant w w1 server dial alloc h hstep
  | shutdown =>
    simp only [step, mongo_util_pool_shutdown] at hstep
    split at hstep
    · simp at hstep
    · next pools1 heap1 log1 hloop =>
      simp only [Except.ok.injEq] at hstep
      subst hstep
      exact shutdown_loop_preserves_pool_invariant _ _ _ _ _ _ h hloop

/-- Every sequence of calls that returns keeps the invariant; it holds of the empty table,
so it holds in every state the operations reach. -/
theorem run_preserves_pool_invariant (w w1 : World) (ops : List Op)
    (h : pool_invariant w.pools) (hrun : run w ops = Except.ok w1) :
    pool_invariant w1.pools := by
  induction ops generalizing w with
  | nil =>
    simp only [run, Except.ok.injEq] at hrun
    subst hrun
    exact h
  | cons op ops ih =>
    simp only [run] at hrun
    split at hrun
    · simp at hrun
    · next w2 hstep => exact ih w2 (step_preserves_pool_invariant w w2 op h hstep) hrun

/-! ## The bound on the idle stack -/

/-- Under the bound the monitor a handle resolves to counts its idle stack and holds
at most 51 idle nodes. -/
theorem idle_bounded_get_monitor (pools : HashTable) (server : mongo_server)
    (h : idle_bounded pools) :
    ((mongo_util_pool__get_monitor pools server).top.length : Int)
      = (mongo_util_pool__get_monitor pools server).in_pool
    ∧ (mongo_util_pool__get_monitor pools server).top.length ≤ 51 := by
  unfold mongo_util_pool__get_monitor
  split
  · next mptr hf => exact h _ (zend_hash_find_mem _ _ _ hf)
  · exact ⟨rfl, by simp [zero_monitor]⟩

/-- Storing a monitor within the bound keeps the bound. -/
theorem idle_bounded_update (pools : HashTable) (id : String) (monitor : stack_monitor)
    (h : idle_bounded pools)
    (hm : (monitor.top.length : Int) = monitor.in_pool ∧ monitor.top.length ≤ 51) :
    idle_bounded (zend_hash_update pools id monitor) := by
  induction pools with
  | nil =>
    intro entry he
    simp only [zend_hash_update, List.mem_singleton] at he
    subst he
    exact hm
  | cons entry rest ih =>
    obtain ⟨key, old⟩ := entry
    have hrest : idle_bounded rest := fun e he => h e (List.mem_cons_of_mem _ he)
    intro e he
    by_cases hk : key = id
    · simp only [zend_hash_update, hk, if_true, List.mem_cons] at he
      rcases he with he | he
      · subst he
        exact hm
      · exact hrest e he
    · simp only [zend_hash_update, hk, if_false, List.mem_cons] at he
      rcases he with he | he
      · subst he
        exact h _ (List.mem_cons_self _ _)
      · exact ih hrest e he

/-- Whatever a call stores, monitor or zeroed copy, keeps the bound when the monitor
is within it. -/
theorem idle_bounded_registry_after (w : World) (id : String) (monitor : stack_monitor)
    (h : idle_bounded w.pools)
    (hm : (monitor.top.length : Int) = monitor.in_pool ∧ monitor.top.length ≤ 51) :
    idle_bounded (registry_after w id monitor) := by
  unfold registry_after
  split
  · exact idle_bounded_update _ _ _ h hm
  · split
    · exact h
    · exact idle_bounded_update _ _ _ h ⟨rfl, by simp [zero_monitor]⟩

/-- The loop of `mongo_util_pool_shutdown` keeps the bound. -/
theorem shutdown_loop_preserves_idle_bounded (pools pools1 : HashTable) (heap heap1 : Heap)
    (log log1 : List Event) (h : idle_bounded pools)
    (hloop : shutdown_loop pools heap log = Except.ok (pools1, heap1, log1)) :
    idle_bounded pools1 := by
  induction pools generalizing pools1 heap heap1 log log1 with
  | nil =>
    simp only [shutdown_loop, Except.ok.injEq, Prod.mk.injEq] at hloop
    obtain ⟨hp, -⟩ := hloop
    subst hp
    exact h
  | cons entry rest ih =>
    obtain ⟨id, monitor⟩ := entry
    have hrest : idle_bounded rest := fun e he => h e (List.mem_cons_of_mem _ he)
    have hm := h _ (List.mem_cons_self (id, monitor) rest)
    simp only [shutdown_loop] at hloop
    split at hloop
    · simp at hloop
    · next flushed heap2 log2 hcl =>
      split at hloop
      · simp at hloop
      · next rest1 heap3 log3 hrec =>
        simp only [Except.ok.injEq, Prod.mk.injEq] at hloop
        obtain ⟨hp, -⟩ := hloop
        subst hp
        obtain ⟨ht, ht1, hp1, -, -⟩ := close_connections_ok _ _ _ _ hcl
        intro e he
        simp only [List.mem_cons] at he
        rcases he with he | he
        · subst he
          simp only at ht1 hp1 hm ⊢
          rw [ht1, hp1, ← hm.1, ht]
          exact ⟨rfl, by simp⟩
        · exact ih _ _ _ _ _ hrest hrec e he

/-- Every call that returns keeps the bound. -/
theorem step_preserves_idle_bounded (w w1 : World) (op : Op) (h : idle_bounded w.pools)
    (hstep : step w op = Except.ok w1) : idle_bounded w1.pools := by
  cases op with
  | init server timeout alloc =>
    have hm := idle_bounded_get_monitor w.pools (w.heap server) h
    simp only [step, Except.ok.injEq] at hstep
    subst hstep
    unfold mongo_util_pool_init
    split
    · apply idle_bounded_registry_after _ _ _ h
      split
      · exact hm
      · exact hm
    · exact h
  | get server dial alloc =>
    have hm := idle_bounded_get_monitor w.pools (w.heap server) h
    simp only [step] at hstep
    split at hstep
    · simp at hstep
    · next w2 status hget =>
      simp only [Except.ok.injEq] at hstep
      subst hstep
      unfold mongo_util_pool_get at hget
      split at hget
      · simp only at hget
        split at hget
        · next socket next htop =>
          simp only [mongo_util_pool__stack_pop, htop, Except.ok.injEq, Prod.mk.injEq] at hget
          obtain ⟨hw, -⟩ := hget
          subst hw
          apply idle_bounded_registry_after _ _ _ h
          simp only [htop, List.length_cons] at hm ⊢
          omega
        · next htop =>
          cases dial with
          | some socket =>
            simp only [mongo_util_pool__connect, dial_and_authenticate, Except.ok.injEq,
              Prod.mk.injEq] at hget
            obtain ⟨hw, -⟩ := hget
            subst hw
            apply idle_bounded_registry_after _ _ _ h
            rw [(add_server_ptr_top _ _).1, (add_server_ptr_top _ _).2]
            exact hm
          | none =>
            simp only [mongo_util_pool__connect, dial_and_authenticate, Except.ok.injEq,
              Prod.mk.injEq] at hget
            obtain ⟨hw, -⟩ := hget
            subst hw
            exact idle_bounded_registry_after _ _ _ h hm
      · simp only [Except.ok.injEq, Prod.mk.injEq] at hget
        obtain ⟨hw, -⟩ := hget
        subst hw
        exact h
  | done server alloc =>
    have hm := idle_bounded_get_monitor w.pools (w.heap server) h
    have hrm : ((mongo_util_pool__rm_server_ptr
        (mongo_util_pool__get_monitor w.pools (w.heap server)) server).top.length : Int)
        = (mongo_util_pool__rm_server_ptr
            (mongo_util_pool__get_monitor w.pools (w.heap server)) server).in_pool := by
      rw [rm_server_ptr_top, rm_server_ptr_in_pool]
      exact hm.1
    simp only [step] at hstep
    unfold mongo_util_pool_done at hstep
    split at hstep
    · by_cases hc : (w.heap server).connected = true
      · simp only [hc, if_true, stack_push_ok _ _ _ hc hrm, Except.ok.injEq] at hstep
        subst hstep
        apply idle_bounded_registry_after _ _ _ h
        exact ⟨rfl, by simp only [List.length_take]; omega⟩
      · simp only [hc, Bool.false_eq_true, if_false, Except.ok.injEq] at hstep
        subst hstep
        apply idle_bounded_registry_after _ _ _ h
        refine ⟨hrm, ?_⟩
        rw [rm_server_ptr_top]
        exact hm.2
    · simp only [Except.ok.injEq] at hstep
      subst hstep
      exact h
  | failed server dial alloc =>
    have hm := idle_bounded_get_monitor w.pools (w.heap server) h
    simp only [step] at hstep
    unfold mongo_util_pool_failed at hstep
    split at hstep
    · cases dial with
      | some socket =>
        simp only [mongo_util_pool__connect, dial_and_authenticate, Except.ok.injEq] at hstep
        subst hstep
        exact idle_bounded_registry_after _ _ _ h hm
      | none =>
        simp only [mongo_util_pool__connect, dial_and_authenticate] at hstep
        split at hstep
        · simp at hstep
        · next flushed heap1 log1 hcl =>
          simp only [Except.ok.injEq] at hstep
          subst hstep
          obtain ⟨ht, ht1, hp1, -, -⟩ := close_connections_ok _ _ _ _ hcl
          apply idle_bounded_registry_after _ _ _ h
          simp only at ht1 hp1
          rw [ht1, hp1, ← hm.1, ht]
          exact ⟨rfl, by simp⟩
    · simp only [Except.ok.injEq] at hstep
      subst hstep
      exact h
  | shutdown =>
    simp only [step, mongo_util_pool_shutdown] at hstep
    split at hstep
    · simp at hstep
    · next pools1 heap1 log1 hloop =>
      simp only [Except.ok.injEq] at hstep
      subst hstep
      exact shutdown_loop_preserves_idle_bounded _ _ _ _ _ _ h hloop

/-- In every state reached from an empty registry by calls that return, `in_pool` of
every monitor lies between 0 and 51: the unwrapped arithmetic on `in_pool` never
leaves the range of a C `int`. -/
theorem reachable_in_pool_bounded (heap : Heap) (log : List Event) (ops : List Op)
    (w1 : World)
    (hrun : run { pools := [], heap := heap, log := log } ops = Except.ok w1)
    (server : ServerPtr) :
    0 ≤ (w1.monitor server).in_pool ∧ (w1.monitor server).in_pool ≤ 51 := by
  have hall : ∀ (ops : List Op) (w w2 : World), idle_bounded w.pools →
      run w ops = Except.ok w2 → idle_bounded w2.pools := by
    intro ops
    induction ops with
    | nil =>
      intro w w2 h hr
      simp only [run, Except.ok.injEq] at hr
      subst hr
      exact h
    | cons op ops ih =>
      intro w w2 h hr
      simp only [run] at hr
      split at hr
      · simp at hr
      · next w3 hstep => exact ih w3 w2 (step_preserves_idle_bounded w w3 op h hstep) hr
  have hb := hall ops _ w1 (fun e he => absurd he (List.not_mem_nil e)) hrun
  have hm := idle_bounded_get_monitor w1.pools (w1.heap server) hb
  unfold World.monitor
  omega

/-! ## Reconnecting after a failure -/

/-- The sockets closed in two logs put end to end. -/
theorem closed_sockets_append (log1 log2 : List Event) :
    closed_sockets (log1 ++ log2) = closed_sockets log1 ++ closed_sockets log2 := by
  induction log1 with
  | nil => rfl
  | cons event rest ih =>
    cases event with
    | connect server timeout result => simpa [closed_sockets] using ih
    | close socket => simpa [closed_sockets] using ih

/-- C11: `fail` on any handle whose reconnect dial succeeds returns and leaves the
monitor of the handle as it was (idle stack, servers chain, `in_use`, `in_pool` and
timeout), leaves every other monitor and every other handle as they were, leaves the
failing handle connected on the new socket, and closes at most one socket, the one the
failing handle held. -/
theorem failed_reconnect_frame (w : World) (server : ServerPtr) (socket : Socket) :
    ∃ w1, mongo_util_pool_failed w server (some socket) = Except.ok w1
      ∧ w1.monitor server = w.monitor server
      ∧ (∀ id, id ≠ mongo_util_pool__get_id (w.heap server) →
          zend_hash_find w1.pools id = zend_hash_find w.pools id)
      ∧ (∀ p, p ≠ server → w1.heap p = w.heap p)
      ∧ (w1.heap server).connected = true
      ∧ (w1.heap server).socket = socket
      ∧ closed_sockets w1.log
        = closed_sockets w.log
          ++ (if (w.heap server).connected then [(w.heap server).socket] else []) := by
  have hr : monitor_resolved w (w.heap server) true = true := by simp [monitor_resolved]
  by_cases hc : (w.heap server).connected = true
  · refine ⟨{ pools := registry_after w (mongo_util_pool__get_id (w.heap server))
                (mongo_util_pool__get_monitor w.pools (w.heap server)),
              heap := (w.heap.set server { w.heap server with connected := false }).set server
                { w.heap server with socket := socket, connected := true },
              log := (w.log ++ [Event.close (w.heap server).socket])
                ++ [Event.connect server (mongo_util_pool__get_monitor w.pools (w.heap server)).timeout
                      (some socket)],
              fresh := false }, ?_, ?_, ?_, ?_, ?_, ?_, ?_⟩
    · simp [mongo_util_pool_failed, hr, mongo_util_pool__connect, dial_and_authenticate,
        mongo_util_disconnect, MONGO_UTIL_DISCONNECT, hc, Heap.set]
    · simp only [World.monitor]
      apply get_monitor_registry_after_same
      simp [Heap.set, mongo_util_pool__get_id]
    · intro id hid
      exact zend_hash_find_registry_after_other _ _ _ _ hid
    · intro p hp
      simp [Heap.set, hp]
    · simp [Heap.set]
    · simp [Heap.set]
    · simp [closed_sockets_append, closed_sockets, hc]
  · have hc' : (w.heap server).connected = false := by simpa using hc
    refine ⟨{ pools := registry_after w (mongo_util_pool__get_id (w.heap server))
                (mongo_util_pool__get_monitor w.pools (w.heap server)),
              heap := w.heap.set server
                { w.heap server with socket := socket, connected := true },
              log := w.log
                ++ [Event.connect server (mongo_util_pool__get_monitor w.pools (w.heap server)).timeout
                      (some socket)],
              fresh := false }, ?_, ?_, ?_, ?_, ?_, ?_, ?_⟩
    · simp [mongo_util_pool_failed, hr, mongo_util_pool__connect, dial_and_authenticate,
        mongo_util_disconnect, hc']
    · simp only [World.monitor]
      apply get_monitor_registry_after_same
      simp [Heap.set, mongo_util_pool__get_id]
    · intro id hid
      exact zend_hash_find_registry_after_other _ _ _ _ hid
    · intro p hp
      simp [Heap.set, hp]
    · simp [Heap.set]
    · simp [Heap.set]
    · simp [closed_sockets_append, closed_sockets, hc']

/-! ## Releasing a dead connection -/

/-- C16: releasing a handle with `connected = 0` returns, leaves the idle stack and
`in_pool` of its monitor as they were and closes and pushes nothing (heap and log are
unchanged). -/
theorem done_disconnected (w : World) (server : ServerPtr)
    (hc : (w.heap server).connected = false) :
    ∃ w1, mongo_util_pool_done w server = Except.ok w1
      ∧ (w1.monitor server).top = (w.monitor server).top
      ∧ (w1.monitor server).in_pool = (w.monitor server).in_pool
      ∧ w1.heap = w.heap
      ∧ w1.log = w.log := by
  have hr : monitor_resolved w (w.heap server) true = true := by simp [monitor_resolved]
  have hm : mongo_util_pool__get_monitor
      (registry_after w (mongo_util_pool__get_id (w.heap server))
        (mongo_util_pool__rm_server_ptr (mongo_util_pool__get_monitor w.pools (w.heap server))
          server)) (w.heap server)
      = mongo_util_pool__rm_server_ptr (mongo_util_pool__get_monitor w.pools (w.heap server))
          server
      ∨ mongo_util_pool__get_monitor
          (registry_after w (mongo_util_pool__get_id (w.heap server))
            (mongo_util_pool__rm_server_ptr
              (mongo_util_pool__get_monitor w.pools (w.heap server)) server)) (w.heap server)
        = mongo_util_pool__get_monitor w.pools (w.heap server) := by
    cases hs : zend_hash_find w.pools (mongo_util_pool__get_id (w.heap server)) with
    | none =>
      right
      rw [get_monitor_registry_after_absent _ _ _ _ rfl hs]
      simp [mongo_util_pool__get_monitor, hs]
    | some stored =>
      left
      exact get_monitor_registry_after_stored _ _ _ _ rfl (by simp [hs])
  refine ⟨{ w with
      pools := (registry_after w (mongo_util_pool__get_id (w.heap server))
        (mongo_util_pool__rm_server_ptr (mongo_util_pool__get_monitor w.pools (w.heap server))
          server)),
      fresh := false }, ?_, ?_, ?_, rfl, rfl⟩
  · simp [mongo_util_pool_done, hr, hc]
  · simp only [World.monitor]
    rcases hm with hm | hm
    · rw [hm, rm_server_ptr_top]
    · rw [hm]
  · simp only [World.monitor]
    rcases hm with hm | hm
    · rw [hm, rm_server_ptr_in_pool]
    · rw [hm]

/-- Witness of `done_disconnected`: handle 2, never connected, releases on a stored
monitor that holds one idle connection. -/
theorem done_disconnected_witness :
    ((world_after [Op.init 1 0, Op.init 1 0, Op.get 1 (some 1), Op.done 1]).heap 2).connected
      = false
    ∧ ((world_after [Op.init 1 0, Op.init 1 0, Op.get 1 (some 1), Op.done 1]).monitor 2).top
      = [1]
    ∧ ∃ w1,
      mongo_util_pool_done
          (world_after [Op.init 1 0, Op.init 1 0, Op.get 1 (some 1), Op.done 1]) 2
        = Except.ok w1
      ∧ (w1.monitor 2).top
        = ((world_after [Op.init 1 0, Op.init 1 0, Op.get 1 (some 1), Op.done 1]).monitor 2).top
      ∧ (w1.monitor 2).in_pool
        = ((world_after
            [Op.init 1 0, Op.init 1 0, Op.get 1 (some 1), Op.done 1]).monitor 2).in_pool
      ∧ w1.heap = (world_after [Op.init 1 0, Op.init 1 0, Op.get 1 (some 1), Op.done 1]).heap
      ∧ w1.log = (world_after [Op.init 1 0, Op.init 1 0, Op.get 1 (some 1), Op.done 1]).log :=
  ⟨by decide!, by decide!,
    done_disconnected (world_after [Op.init 1 0, Op.init 1 0, Op.get 1 (some 1), Op.done 1]) 2
      (by decide!)⟩

/-! ## Acquiring when the dial fails -/

/-- The flush of a monitor with an empty idle stack returns, and a second flush of the
result changes nothing and closes nothing. -/
theorem close_connections_no_idle (monitor : stack_monitor) (heap : Heap) (log : List Event)
    (htop : monitor.top = []) :
    ∃ (flushed : stack_monitor) (heap1 : Heap) (log1 : List Event),
      mongo_util_pool__close_connections monitor heap log = Except.ok (flushed, heap1, log1)
      ∧ mongo_util_pool__close_connections flushed heap1 log1
        = Except.ok (flushed, heap1, log1) := by
  simp only [mongo_util_pool__close_connections, htop, List.length_nil, close_connections_stack]
  exact ⟨_, _, _, rfl, by simp [close_connections_servers, close_connections_stack]⟩

/-- C18 (the code on a failing run): two `init` calls store a zero-valued monitor;
after one acquire and one release it holds one idle connection and `in_pool = 1`;
`mongo_util_pool__close_connections` applied to it once does not return, because the
loop `while (top)` never updates `top` and pops the emptied stack, and neither does the
shutdown of that process. There is no state after one application to compare a
second one with. -/
theorem flush_twice_diverges :
    (run fresh_world [Op.init 1 0, Op.init 1 0, Op.get 1 (some 1), Op.done 1]).map
        (fun w => (zend_hash_find w.pools (mongo_util_pool__get_id endpoint_A)).map
          (fun monitor => (monitor.top, monitor.in_pool)))
      = Except.ok (some ([1], 1))
    ∧ (mongo_util_pool__close_connections
          ((world_after [Op.init 1 0, Op.init 1 0, Op.get 1 (some 1), Op.done 1]).monitor 1)
          (world_after [Op.init 1 0, Op.init 1 0, Op.get 1 (some 1), Op.done 1]).heap
          (world_after [Op.init 1 0, Op.init 1 0, Op.get 1 (some 1), Op.done 1]).log).map
        (fun r => r.1)
      = Except.error Fault.null_deref
    ∧ (run fresh_world
          [Op.init 1 0, Op.init 1 0, Op.get 1 (some 1), Op.done 1, Op.shutdown]).map
        (fun w => w.monitor 1) = Except.error Fault.null_deref := by
  decide!

/-! ## Safety of the eviction walk -/

/-- On a chain of at least 51 nodes the walk ends on a node. -/
theorem stack_push_walk_reaches (chain : List Socket) (h : 51 ≤ chain.length) :
    (stack_push_walk chain 0).2 ≠ [] := by
  rw [stack_push_walk_eq]
  intro hd
  have := congrArg List.length hd
  simp only [Nat.sub_zero, List.length_drop, List.length_nil] at this
  omega

/-- On a monitor whose `in_pool` is the length of its idle stack, `stack_push` of a handle
that is not connected returns; nothing is pushed and the nodes below the 51st are
closed. -/
theorem stack_push_idle (monitor : stack_monitor) (server : mongo_server) (log : List Event)
    (hc : server.connected = false) (hinv : (monitor.top.length : Int) = monitor.in_pool) :
    mongo_util_pool__stack_push monitor server log
      = Except.ok
          ({ monitor with
              top := monitor.top.take 51,
              in_pool := ((monitor.top.take 51).length : Int) },
            log ++ (monitor.top.drop 51).map Event.close) := by
  simp only [mongo_util_pool__stack_push, hc, Bool.false_eq_true, if_false]
  by_cases h : monitor.in_pool > 50
  · obtain ⟨before, socket, next, hl, hb⟩ : ∃ before socket next,
        monitor.top = before ++ socket :: next ∧ before.length = 50 := by
      cases hd : monitor.top.drop 50 with
      | nil =>
        have := congrArg List.length hd
        simp only [List.length_drop, List.length_nil] at this
        omega
      | cons socket next =>
        refine ⟨monitor.top.take 50, socket, next, ?_, ?_⟩
        · rw [← hd, List.take_append_drop]
        · simp only [List.length_take]
          omega
    have hb1 : (before ++ [socket]).length = 51 := by simp [hb]
    have hn : (monitor.top.length : Int) = 51 + next.length := by
      have := congrArg List.length hl
      simp only [List.length_cons, List.length_append, hb] at this
      omega
    have e : before ++ socket :: next = (before ++ [socket]) ++ next := by simp
    simp only [h, if_true, stack_push_walk_eq, Nat.sub_zero, hl, List.take_left' hb,
      List.drop_left' hb, stack_push_evict_eq]
    rw [e, List.take_left' hb1, List.drop_left' hb1, hb1]
    congr 2
    simp only [stack_monitor.mk.injEq, true_and, and_true]
    omega
  · have ht : monitor.top.take 51 = monitor.top := by
      apply List.take_of_length_le
      omega
    have hd : monitor.top.drop 51 = [] := by
      apply List.drop_of_length_le
      omega
    simp only [h, if_false, ht, hd, List.map_nil, List.append_nil]
    congr 2
    cases monitor
    simp only [stack_monitor.mk.injEq, true_and, and_true] at hinv ⊢
    omega

/-- C19: on a monitor whose `in_pool` is the length of its idle stack, whenever
`mongo_util_pool__stack_push` takes the branch `in_pool > 50` (after pushing a
connected handle, or without a push for a handle that is not connected) the walk ends
on a node, not on `NULL`, and the call returns. The walk and the eviction loop are
structural recursions on the chain, so both end. -/
theorem stack_push_walk_safe (monitor : stack_monitor) (server : mongo_server)
    (log : List Event) (hinv : (monitor.top.length : Int) = monitor.in_pool) :
    (server.connected = true → monitor.in_pool + 1 > 50 →
        (stack_push_walk (server.socket :: monitor.top) 0).2 ≠ [])
    ∧ (server.connected = false → monitor.in_pool > 50 →
        (stack_push_walk monitor.top 0).2 ≠ [])
    ∧ ∃ result, mongo_util_pool__stack_push monitor server log = Except.ok result := by
  refine ⟨?_, ?_, ?_⟩
  · intro _ h
    apply stack_push_walk_reaches
    simp only [List.length_cons]
    omega
  · intro _ h
    apply stack_push_walk_reaches
    omega
  · cases hc : server.connected with
    | true => exact ⟨_, stack_push_ok monitor server log hc hinv⟩
    | false => exact ⟨_, stack_push_idle monitor server log hc hinv⟩

/-- Witness of `stack_push_walk_safe`: a connected handle is pushed on a monitor that
holds 51 idle connections, so that the branch is taken. -/
theorem stack_push_walk_safe_witness :
    ((((world_after (acquire_all 51 ++ release_all 51)).monitor 1).top.length : Int)
      = ((world_after (acquire_all 51 ++ release_all 51)).monitor 1).in_pool)
    ∧ ((world_after (acquire_all 51 ++ release_all 51)).monitor 1).in_pool + 1 > 50
    ∧ (stack_push_walk
        (((world_after (acquire_all 51 ++ release_all 51)).heap 1).socket
          :: ((world_after (acquire_all 51 ++ release_all 51)).monitor 1).top) 0).2 ≠ [] :=
  ⟨by decide!, by decide!,
    (stack_push_walk_safe ((world_after (acquire_all 51 ++ release_all 51)).monitor 1)
      ((world_after (acquire_all 51 ++ release_all 51)).heap 1) [] (by decide!)).1
      (by decide!) (by decide!)⟩

/-! ## The servers chain and its counter -/

/-- Under the invariant the monitor a handle resolves to lists no server twice. -/
theorem active_invariant_get_monitor (pools : HashTable) (server : mongo_server)
    (h : active_invariant pools) :
    (mongo_util_pool__get_monitor pools server).servers.Nodup := by
  unfold mongo_util_pool__get_monitor
  split
  · next mptr hf => exact h _ (zend_hash_find_mem _ _ _ hf)
  · simp [zero_monitor]

/-- Storing a monitor that lists no server twice keeps the invariant. -/
theorem active_invariant_update (pools : HashTable) (id : String) (monitor : stack_monitor)
    (h : active_invariant pools) (hm : monitor.servers.Nodup) :
    active_invariant (zend_hash_update pools id monitor) := by
  induction pools with
  | nil =>
    intro entry he
    simp only [zend_hash_update, List.mem_singleton] at he
    subst he
    exact hm
  | cons entry rest ih =>
    obtain ⟨key, old⟩ := entry
    have hrest : active_invariant rest := fun e he => h e (List.mem_cons_of_mem _ he)
    intro e he
    by_cases hk : key = id
    · simp only [zend_hash_update, hk, if_true, List.mem_cons] at he
      rcases he with he | he
      · subst he
        exact hm
      · exact hrest e he
    · simp only [zend_hash_update, hk, if_false, List.mem_cons] at he
      rcases he with he | he
      · subst he
        exact h _ (List.mem_cons_self _ _)
      · exact ih hrest e he

/-- Whatever a call stores, monitor or zeroed copy, the invariant is kept when the
monitor lists no server twice. -/
theorem active_invariant_registry_after (w : World) (id : String) (monitor : stack_monitor)
    (h : active_invariant w.pools) (hm : monitor.servers.Nodup) :
    active_invariant (registry_after w id monitor) := by
  unfold registry_after
  split
  · exact active_invariant_update _ _ _ h hm
  · split
    · exact h
    · exact active_invariant_update _ _ _ h (by simp [zero_monitor])

/-- The scan finds `server` exactly when it is in the chain, and then unlinks its first
occurrence. -/
theorem rm_server_ptr_scan_eq (server : ServerPtr) (chain : List ServerPtr) :
    rm_server_ptr_scan server chain
      = if server ∈ chain then some (chain.erase server) else none := by
  induction chain with
  | nil => simp [rm_server_ptr_scan]
  | cons current next ih =>
    by_cases hcur : current = server
    · subst hcur
      simp [rm_server_ptr_scan]
    · have hne : ¬ server = current := fun e => hcur e.symm
      by_cases hmem : server ∈ next
      · simp [rm_server_ptr_scan, hcur, hne, ih, hmem, List.erase_cons]
      · simp [rm_server_ptr_scan, hcur, hne, ih, hmem]

/-- Unlinking a server erases its first occurrence from the chain. -/
theorem rm_server_ptr_servers (monitor : stack_monitor) (server : ServerPtr) :
    (mongo_util_pool__rm_server_ptr monitor server).servers = monitor.servers.erase server := by
  unfold mongo_util_pool__rm_server_ptr
  cases hs : monitor.servers with
  | nil => simp [hs]
  | cons head next =>
    by_cases hh : head = server
    · subst hh
      simp
    · by_cases hmem : server ∈ next
      · simp [hh, rm_server_ptr_scan_eq, hmem, List.erase_cons]
      · simp [hh, rm_server_ptr_scan_eq, hmem, List.erase_cons, hs, List.erase_of_not_mem hmem]

/-- A push that returns leaves the servers chain, `in_use` and the timeout alone. -/
theorem stack_push_frame (monitor pushed : stack_monitor) (server : mongo_server)
    (log log1 : List Event)
    (h : mongo_util_pool__stack_push monitor server log = Except.ok (pushed, log1)) :
    pushed.servers = monitor.servers ∧ pushed.in_use = monitor.in_use
      ∧ pushed.timeout = monitor.timeout := by
  simp only [mongo_util_pool__stack_push] at h
  split at h
  · split at h
    · split at h
      · simp at h
      · simp only [Except.ok.injEq, Prod.mk.injEq] at h
        obtain ⟨hp, -⟩ := h
        subst hp
        exact ⟨rfl, rfl, rfl⟩
    · simp only [Except.ok.injEq, Prod.mk.injEq] at h
      obtain ⟨hp, -⟩ := h
      subst hp
      exact ⟨rfl, rfl, rfl⟩
  · split at h
    · split at h
      · simp at h
      · simp only [Except.ok.injEq, Prod.mk.injEq] at h
        obtain ⟨hp, -⟩ := h
        subst hp
        exact ⟨rfl, rfl, rfl⟩
    · simp only [Except.ok.injEq, Prod.mk.injEq] at h
      obtain ⟨hp, -⟩ := h
      subst hp
      exact ⟨rfl, rfl, rfl⟩

/-- Unlinking a server keeps the chain free of duplicates. -/
theorem rm_server_ptr_active (monitor : stack_monitor) (server : ServerPtr)
    (hm : monitor.servers.Nodup) :
    (mongo_util_pool__rm_server_ptr monitor server).servers.Nodup := by
  rw [rm_server_ptr_servers]
  exact hm.erase _

/-- Linking a server keeps the chain free of duplicates. -/
theorem add_server_ptr_active (monitor : stack_monitor) (server : ServerPtr)
    (hm : monitor.servers.Nodup) :
    (mongo_util_pool__add_server_ptr monitor server).servers.Nodup := by
  unfold mongo_util_pool__add_server_ptr
  by_cases hmem : server ∈ monitor.servers
  · simp only [hmem, if_true]
    exact hm
  · simp only [hmem, if_false]
    exact List.nodup_cons.mpr ⟨hmem, hm⟩

/-- The function `mongo_util_pool_init` keeps the invariant of the servers chain. -/
theorem init_preserves_active_invariant (w : World) (server : ServerPtr) (timeout : Int)
    (alloc : Bool) (h : active_invariant w.pools) :
    active_invariant (mongo_util_pool_init w server timeout alloc).1.pools := by
  have hm := active_invariant_get_monitor w.pools (w.heap server) h
  unfold mongo_util_pool_init
  split
  · apply active_invariant_registry_after _ _ _ h
    split
    · exact hm
    · exact hm
  · exact h

/-- The function `mongo_util_pool_get` keeps the invariant of the servers chain. -/
theorem get_preserves_active_invariant (w w1 : World) (server : ServerPtr)
    (dial : Option Socket) (alloc : Bool) (status : Status) (h : active_invariant w.pools)
    (hget : mongo_util_pool_get w server dial alloc = Except.ok (w1, status)) :
    active_invariant w1.pools := by
  have hm := active_invariant_get_monitor w.pools (w.heap server) h
  unfold mongo_util_pool_get at hget
  split at hget
  · simp only at hget
    split at hget
    · next socket next htop =>
      simp only [mongo_util_pool__stack_pop, htop, Except.ok.injEq, Prod.mk.injEq] at hget
      obtain ⟨hw, -⟩ := hget
      subst hw
      exact active_invariant_registry_after _ _ _ h hm
    · next htop =>
      cases dial with
      | some socket =>
        simp only [mongo_util_pool__connect, dial_and_authenticate, Except.ok.injEq,
          Prod.mk.injEq] at hget
        obtain ⟨hw, -⟩ := hget
        subst hw
        exact active_invariant_registry_after _ _ _ h (add_server_ptr_active _ _ hm)
      | none =>
        simp only [mongo_util_pool__connect, dial_and_authenticate, Except.ok.injEq,
          Prod.mk.injEq] at hget
        obtain ⟨hw, -⟩ := hget
        subst hw
        exact active_invariant_registry_after _ _ _ h hm
  · simp only [Except.ok.injEq, Prod.mk.injEq] at hget
    obtain ⟨hw, -⟩ := hget
    subst hw
    exact h

/-- The function `mongo_util_pool_done` keeps the invariant of the servers chain. -/
theorem done_preserves_active_invariant (w w1 : World) (server : ServerPtr) (alloc : Bool)
    (h : active_invariant w.pools)
    (hdone : mongo_util_pool_done w server alloc = Except.ok w1) :
    active_invariant w1.pools := by
  have hm := active_invariant_get_monitor w.pools (w.heap server) h
  have hrm := rm_server_ptr_active _ server hm
  unfold mongo_util_pool_done at hdone
  split at hdone
  · by_cases hc : (w.heap server).connected = true
    · simp only [hc, if_true] at hdone
      split at hdone
      · simp at hdone
      · next pushed log1 hpush =>
        simp only [Except.ok.injEq] at hdone
        subst hdone
        obtain ⟨hs, -, -⟩ := stack_push_frame _ _ _ _ _ hpush
        apply active_invariant_registry_after _ _ _ h
        rw [hs]
        exact hrm
    · simp only [hc, Bool.false_eq_true, if_false, Except.ok.injEq] at hdone
      subst hdone
      exact active_invariant_registry_after _ _ _ h hrm
  · simp only [Except.ok.injEq] at hdone
    subst hdone
    exact h

/-- A flush that returns leaves an empty servers chain. -/
theorem close_connections_active (monitor : stack_monitor) (heap : Heap) (log : List Event)
    (result : stack_monitor × Heap × List Event)
    (h : mongo_util_pool__close_connections monitor heap log = Except.ok result) :
    result.1.servers.Nodup := by
  obtain ⟨-, -, -, hs, -⟩ := close_connections_ok _ _ _ _ h
  rw [hs]
  exact List.nodup_nil

/-- The function `mongo_util_pool_failed` keeps the invariant of the servers chain. -/
theorem failed_preserves_active_invariant (w w1 : World) (server : ServerPtr)
    (dial : Option Socket) (alloc : Bool) (h : active_invariant w.pools)
    (hfailed : mongo_util_pool_failed w server dial alloc = Except.ok w1) :
    active_invariant w1.pools := by
  have hm := active_invariant_get_monitor w.pools (w.heap server) h
  unfold mongo_util_pool_failed at hfailed
  split at hfailed
  · cases dial with
    | some socket =>
      simp only [mongo_util_pool__connect, dial_and_authenticate, Except.ok.injEq] at hfailed
      subst hfailed
      exact active_invariant_registry_after _ _ _ h hm
    | none =>
      simp only [mongo_util_pool__connect, dial_and_authenticate] at hfailed
      split at hfailed
      · simp at hfailed
      · next flushed heap1 log1 hcl =>
        simp only [Except.ok.injEq] at hfailed
        subst hfailed
        exact active_invariant_registry_after _ _ _ h (close_connections_active _ _ _ _ hcl)
  · simp only [Except.ok.injEq] at hfailed
    subst hfailed
    exact h

/-- The loop of `mongo_util_pool_shutdown` keeps the invariant of the servers chain. -/
theorem shutdown_loop_preserves_active_invariant (pools pools1 : HashTable)
    (heap heap1 : Heap) (log log1 : List Event) (h : active_invariant pools)
    (hloop : shutdown_loop pools heap log = Except.ok (pools1, heap1, log1)) :
    active_invariant pools1 := by
  induction pools generalizing pools1 heap heap1 log log1 with
  | nil =>
    simp only [shutdown_loop, Except.ok.injEq, Prod.mk.injEq] at hloop
    obtain ⟨hp, -⟩ := hloop
    subst hp
    exact h
  | cons entry rest ih =>
    obtain ⟨id, monitor⟩ := entry
    have hrest : active_invariant rest := fun e he => h e (List.mem_cons_of_mem _ he)
    simp only [shutdown_loop] at hloop
    split at hloop
    · simp at hloop
    · next flushed heap2 log2 hcl =>
      split at hloop
      · simp at hloop
      · next rest1 heap3 log3 hrec =>
        simp only [Except.ok.injEq, Prod.mk.injEq] at hloop
        obtain ⟨hp, -⟩ := hloop
        subst hp
        intro e he
        simp only [List.mem_cons] at he
        rcases he with he | he
        · subst he
          exact close_connections_active _ _ _ _ hcl
        · exact ih _ _ _ _ _ hrest hrec e he

/-- Every call that returns keeps the invariant of the servers chain. -/
theorem step_preserves_active_invariant (w w1 : World) (op : Op)
    (h : active_invariant w.pools) (hstep : step w op = Except.ok w1) :
    active_invariant w1.pools := by
  cases op with
  | init server timeout alloc =>
    simp only [step, Except.ok.injEq] at hstep
    subst hstep
    exact init_preserves_active_invariant w server timeout alloc h
  | get server dial alloc =>
    simp only [step] at hstep
    split at hstep
    · simp at hstep
    · next w2 status hget =>
      simp only [Except.ok.injEq] at hstep
      subst hstep
      exact get_preserves_active_invariant w _ server dial alloc status h hget
  | done server alloc => exact done_preserves_active_invariant w w1 server alloc h hstep
  | failed server dial alloc =>
    exact failed_preserves_active_invariant w w1 server dial alloc h hstep
  | shutdown =>
    simp only [step, mongo_util_pool_shutdown] at hstep
    split at hstep
    · simp at hstep
    · next pools1 heap1 log1 hloop =>
      simp only [Except.ok.injEq] at hstep
      subst hstep
      exact shutdown_loop_preserves_active_invariant _ _ _ _ _ _ h hloop

/-- Every sequence of calls that returns keeps the invariant of the servers chain. -/
theorem run_preserves_active_invariant (w w1 : World) (ops : List Op)
    (h : active_invariant w.pools) (hrun : run w ops = Except.ok w1) :
    active_invariant w1.pools := by
  induction ops generalizing w with
  | nil =>
    simp only [run, Except.ok.injEq] at hrun
    subst hrun
    exact h
  | cons op ops ih =>
    simp only [run] at hrun
    split at hrun
    · simp at hrun
    · next w2 hstep => exact ih w2 (step_preserves_active_invariant w w2 op h hstep) hrun

/-! ## Invariants of the reachable states -/

/-- C12: in every state reached from an empty registry, where every monitor starts
zero-valued, by a sequence of init, acquire, release, fail and shutdown calls that
return, the length of the idle stack of every monitor equals its `in_pool`. -/
theorem reachable_idle_length (heap : Heap) (log : List Event) (ops : List Op) (w1 : World)
    (hrun : run { pools := [], heap := heap, log := log } ops = Except.ok w1)
    (server : ServerPtr) :
    ((w1.monitor server).top.length : Int) = (w1.monitor server).in_pool := by
  have hinv : pool_invariant w1.pools :=
    run_preserves_pool_invariant _ w1 ops (fun e he => absurd he (List.not_mem_nil e)) hrun
  exact pool_invariant_get_monitor _ _ hinv

/-- Witness of `reachable_idle_length`: the state after two `init` calls, one acquire
and one release, where the stored monitor holds one idle connection. -/
theorem reachable_idle_length_witness :
    run { pools := [], heap := fresh_world.heap, log := [] }
        [Op.init 1 0, Op.init 1 0, Op.get 1 (some 1), Op.done 1]
      = Except.ok (world_after [Op.init 1 0, Op.init 1 0, Op.get 1 (some 1), Op.done 1])
    ∧ ((world_after [Op.init 1 0, Op.init 1 0, Op.get 1 (some 1), Op.done 1]).monitor 1).top
      = [1]
    ∧ ((((world_after
          [Op.init 1 0, Op.init 1 0, Op.get 1 (some 1), Op.done 1]).monitor 1).top.length : Int)
      = ((world_after
          [Op.init 1 0, Op.init 1 0, Op.get 1 (some 1), Op.done 1]).monitor 1).in_pool) :=
  ⟨rfl, by decide!,
    reachable_idle_length fresh_world.heap []
      [Op.init 1 0, Op.init 1 0, Op.get 1 (some 1), Op.done 1]
      (world_after [Op.init 1 0, Op.init 1 0, Op.get 1 (some 1), Op.done 1]) rfl 1⟩

/-! ## Overflow of the counter of active handles -/

/-- Wrapping after each of two steps is wrapping once. -/
theorem int_wrap_succ (k : Int) : int_wrap (int_wrap k + 1) = int_wrap (k + 1) := by
  unfold int_wrap
  omega

/-- A run of two sequences of calls is the run of the second from where the first
ends. -/
theorem run_append (w : World) (ops1 ops2 : List Op) :
    run w (ops1 ++ ops2)
      = match run w ops1 with
        | Except.error fault => Except.error fault
        | Except.ok w1 => run w1 ops2 := by
  induction ops1 generalizing w with
  | nil => rfl
  | cons op ops ih =>
    simp only [List.cons_append, run]
    cases step w op with
    | error fault => rfl
    | ok w1 => exact ih w1

/-- One round on a stored monitor that holds the connection of handle 1 as its only
idle connection and no active handle: the acquire takes the pooled connection and
increments `in_use`, the release finds the handle in no chain, decrements nothing and
pushes the connection back. -/
theorem acquire_release_round (w : World) (in_use : Int)
    (hm : zend_hash_find w.pools (mongo_util_pool__get_id endpoint_A)
      = some { timeout := 0, in_use := in_use, in_pool := 1, top := [1], servers := [] })
    (hh : w.heap 1 = { endpoint_A with socket := 1, connected := true }) :
    ∃ w1, run w [Op.get 1 none, Op.done 1] = Except.ok w1
      ∧ zend_hash_find w1.pools (mongo_util_pool__get_id endpoint_A)
        = some { timeout := 0, in_use := int_wrap (in_use + 1), in_pool := 1, top := [1],
                 servers := [] }
      ∧ w1.heap 1 = { endpoint_A with socket := 1, connected := true } := by
  have hid : mongo_util_pool__get_id
      ({ endpoint_A with socket := 1, connected := true } : mongo_server)
      = mongo_util_pool__get_id endpoint_A := rfl
  have eA : mongo_util_pool_get w 1 none
      = Except.ok
          ({ w with
              pools := zend_hash_update w.pools (mongo_util_pool__get_id endpoint_A)
                { timeout := 0, in_use := int_wrap (in_use + 1), in_pool := 0, top := [],
                  servers := [] },
              heap := w.heap.set 1 { endpoint_A with socket := 1, connected := true },
              fresh := false },
            Status.SUCCESS) := by
    simp [mongo_util_pool_get, monitor_resolved, mongo_util_pool__get_monitor, hh, hid, hm,
      mongo_util_pool__stack_pop, registry_after]
  have eB : mongo_util_pool_done
        { w with
          pools := zend_hash_update w.pools (mongo_util_pool__get_id endpoint_A)
            { timeout := 0, in_use := int_wrap (in_use + 1), in_pool := 0, top := [],
              servers := [] },
          heap := w.heap.set 1 { endpoint_A with socket := 1, connected := true },
          fresh := false } 1
      = Except.ok
          { w with
            pools := zend_hash_update
              (zend_hash_update w.pools (mongo_util_pool__get_id endpoint_A)
                { timeout := 0, in_use := int_wrap (in_use + 1), in_pool := 0, top := [],
                  servers := [] })
              (mongo_util_pool__get_id endpoint_A)
              { timeout := 0, in_use := int_wrap (in_use + 1), in_pool := 1, top := [1],
                servers := [] },
            heap := w.heap.set 1 { endpoint_A with socket := 1, connected := true },
            fresh := false } := by
    simp [mongo_util_pool_done, monitor_resolved, mongo_util_pool__get_monitor, Heap.set, hid,
      zend_hash_find_update_same, mongo_util_pool__rm_server_ptr, mongo_util_pool__stack_push,
      registry_after]
  have e : run w [Op.get 1 none, Op.done 1]
      = Except.ok
          { w with
            pools := zend_hash_update
              (zend_hash_update w.pools (mongo_util_pool__get_id endpoint_A)
                { timeout := 0, in_use := int_wrap (in_use + 1), in_pool := 0, top := [],
                  servers := [] })
              (mongo_util_pool__get_id endpoint_A)
              { timeout := 0, in_use := int_wrap (in_use + 1), in_pool := 1, top := [1],
                servers := [] },
            heap := w.heap.set 1 { endpoint_A with socket := 1, connected := true },
            fresh := false } := by
    simp only [run, step, eA, eB]
  exact ⟨_, e, zend_hash_find_update_same _ _ _, by simp [Heap.set]⟩

/-- After `n` rounds the counter `in_use` has been incremented `n` times, each time
within the range of `int`. -/
theorem acquire_release_rounds_in_use (n : Nat) (w : World) (k : Int)
    (hm : zend_hash_find w.pools (mongo_util_pool__get_id endpoint_A)
      = some { timeout := 0, in_use := int_wrap k, in_pool := 1, top := [1], servers := [] })
    (hh : w.heap 1 = { endpoint_A with socket := 1, connected := true }) :
    ∃ w1, run w (acquire_release_rounds n) = Except.ok w1
      ∧ zend_hash_find w1.pools (mongo_util_pool__get_id endpoint_A)
        = some { timeout := 0, in_use := int_wrap (k + n), in_pool := 1, top := [1],
                 servers := [] }
      ∧ w1.heap 1 = { endpoint_A with socket := 1, connected := true } := by
  induction n generalizing w k with
  | zero => exact ⟨w, rfl, by simpa using hm, hh⟩
  | succ n ih =>
    obtain ⟨w1, e1, hm1, hh1⟩ := acquire_release_round w (int_wrap k) hm hh
    rw [int_wrap_succ] at hm1
    obtain ⟨w2, e2, hm2, hh2⟩ := ih w1 (k + 1) hm1 hh1
    refine ⟨w2, ?_, ?_, hh2⟩
    · have hr : acquire_release_rounds (n + 1)
          = [Op.get 1 none, Op.done 1] ++ acquire_release_rounds n := by
        simp [acquire_release_rounds, List.replicate_succ]
      rw [hr, run_append, e1]
      exact e2
    · rw [hm2]
      congr 3
      push_cast
      ring



/-- The run of two sequences of calls when the first returns. -/
theorem run_append_ok (w w1 : World) (ops1 ops2 : List Op)
    (h : run w ops1 = Except.ok w1) : run w (ops1 ++ ops2) = run w1 ops2 := by
  rw [run_append, h]

/-- C13 (the code on a failing run): two `init` calls store a zero-valued monitor and
handle 1 acquires and releases; handle 1 then acquires and releases 2147483647 times
more, each acquire served from the pool. Every pooled acquire increments `in_use` and
no release decrements it, so the C `int` overflows: `in_use` ends at -2147483648. -/
theorem in_use_overflows :
    (run fresh_world
        ([Op.init 1 0, Op.init 1 0, Op.get 1 (some 1), Op.done 1]
          ++ acquire_release_rounds 2147483647)).map
      (fun w => (w.monitor 1).in_use)
      = Except.ok (-2147483648) := by
  have h0 : run fresh_world [Op.init 1 0, Op.init 1 0, Op.get 1 (some 1), Op.done 1]
      = Except.ok (world_after [Op.init 1 0, Op.init 1 0, Op.get 1 (some 1), Op.done 1]) :=
    rfl
  obtain ⟨w1, e, hm, hh⟩ := acquire_release_rounds_in_use 2147483647
    (world_after [Op.init 1 0, Op.init 1 0, Op.get 1 (some 1), Op.done 1]) 1
    (by decide!) (by decide!)
  have hid : mongo_util_pool__get_id (w1.heap 1) = mongo_util_pool__get_id endpoint_A := by
    rw [hh]
    rfl
  have hv : int_wrap (1 + ((2147483647 : Nat) : Int)) = -2147483648 := by
    unfold int_wrap
    norm_num
  have hu : (w1.monitor 1).in_use = -2147483648 := by
    simp only [World.monitor, mongo_util_pool__get_monitor, hid, hm, hv]
  rw [run_append_ok _ _ _ _ h0, e]
  exact congrArg Except.ok hu
/-! ## Registering an active handle -/

/-- C14: on a monitor whose servers chain lists no handle twice,
`mongo_util_pool__add_server_ptr` called twice with the same handle gives the same
monitor as called once: `in_use` is incremented once, as a C `int`, when the handle was
not in the chain and not at all when it was, the handle is in the chain exactly once and the
chain still lists no handle twice. In every state reached from an empty registry by
calls that return, no chain lists a handle twice. -/
theorem add_server_ptr_idempotent (monitor : stack_monitor) (server : ServerPtr)
    (hnodup : monitor.servers.Nodup) :
    mongo_util_pool__add_server_ptr (mongo_util_pool__add_server_ptr monitor server) server
      = mongo_util_pool__add_server_ptr monitor server
    ∧ (mongo_util_pool__add_server_ptr (mongo_util_pool__add_server_ptr monitor server)
          server).in_use
      = (if server ∈ monitor.servers then monitor.in_use else int_wrap (monitor.in_use + 1))
    ∧ (mongo_util_pool__add_server_ptr monitor server).servers.count server = 1
    ∧ (mongo_util_pool__add_server_ptr monitor server).servers.Nodup
    ∧ ∀ (heap : Heap) (log : List Event) (ops : List Op) (w1 : World),
        run { pools := [], heap := heap, log := log } ops = Except.ok w1 →
        ∀ p, (w1.monitor p).servers.Nodup := by
  refine ⟨?_, ?_, ?_, ?_, ?_⟩
  · by_cases hmem : server ∈ monitor.servers
    · simp [mongo_util_pool__add_server_ptr, hmem]
    · simp [mongo_util_pool__add_server_ptr, hmem]
  · by_cases hmem : server ∈ monitor.servers
    · simp [mongo_util_pool__add_server_ptr, hmem]
    · simp [mongo_util_pool__add_server_ptr, hmem]
  · by_cases hmem : server ∈ monitor.servers
    · simp only [mongo_util_pool__add_server_ptr, hmem, if_true]
      exact List.count_eq_one_of_mem hnodup hmem
    · simp only [mongo_util_pool__add_server_ptr, hmem, if_false, List.count_cons_self,
        List.count_eq_zero_of_not_mem hmem]
  · by_cases hmem : server ∈ monitor.servers
    · simp only [mongo_util_pool__add_server_ptr, hmem, if_true]
      exact hnodup
    · simp only [mongo_util_pool__add_server_ptr, hmem, if_false]
      exact List.nodup_cons.mpr ⟨hmem, hnodup⟩
  · intro heap log ops w1 hrun p
    have hact : active_invariant w1.pools :=
      run_preserves_active_invariant _ w1 ops (fun e he => absurd he (List.not_mem_nil e)) hrun
    exact active_invariant_get_monitor w1.pools (w1.heap p) hact

/-- Witness of `add_server_ptr_idempotent`: handle 3 is registered twice on a stored
monitor whose chain holds handles 2 and 1. -/
theorem add_server_ptr_idempotent_witness :
    ((world_after [Op.init 1 0, Op.init 1 0, Op.get 1 (some 1), Op.get 2 (some 2)]).monitor 1).servers = [2, 1]
    ∧ ((world_after [Op.init 1 0, Op.init 1 0, Op.get 1 (some 1), Op.get 2 (some 2)]).monitor 1).servers.Nodup
    ∧ mongo_util_pool__add_server_ptr
        (mongo_util_pool__add_server_ptr
          ((world_after [Op.init 1 0, Op.init 1 0, Op.get 1 (some 1), Op.get 2 (some 2)]).monitor 1) 3) 3
      = mongo_util_pool__add_server_ptr
          ((world_after [Op.init 1 0, Op.init 1 0, Op.get 1 (some 1), Op.get 2 (some 2)]).monitor 1) 3 :=
  ⟨by decide!, by decide!,
    (add_server_ptr_idempotent
      ((world_after [Op.init 1 0, Op.init 1 0, Op.get 1 (some 1), Op.get 2 (some 2)]).monitor 1) 3
      (by decide!)).1⟩

/-! ## What a push keeps -/

end MongoPool
